import Mathlib

/-!
Verification of the data-transformation and charting pipeline of the
graphql dashboard repository, shallowly embedded from the JavaScript
sources.

Modelling conventions:

* JavaScript numbers are modelled by `JsNum`: a rational together with a
  `nan` value standing for every non-finite result (`NaN`, `±Infinity`).
  Arithmetic on a missing record field (`undefined`) yields `nan`,
  matching `x + undefined = NaN` in JavaScript; `jsDiv` yields `nan` on a
  zero denominator, matching `x / 0 = ±Infinity` and `0 / 0 = NaN`.
* A possibly missing `amount` field is `Option ℚ`; the JavaScript idiom
  `audit.amount || 0` is `Option.getD · 0` (for finite amounts the two
  agree, since `0 || 0` is `0`).
* A timestamp is modelled by its local calendar components
  `(year, month, day, time-of-day)` with lexicographic order, which is
  exactly the order that `Date` subtraction induces on real dates.
  `toLocaleDateString` grouping keys are the `(year, month, day)` triple
  (the en-US date string determines exactly these components), and
  `getFullYear`/`getMonth` grouping keys the `(year, month)` pair (the
  template string "y-(m+1)" determines exactly these components).
* A JavaScript object used as a map with non-index string keys preserves
  insertion order, so it is modelled by an association list updated in
  place (`upsertWith`); `Object.values` is `List.map Prod.snd`.
* `Array.prototype.sort` with the source's comparator is modelled by an
  insertion sort `sortBy` over a boolean comparator; every claim proved
  below depends on the result only through its sortedness and the fact
  that it is a permutation of its input.
-/

/-- A JavaScript number: either a finite rational or `nan`, which stands
for all non-finite values (`NaN` and the infinities). -/
inductive JsNum where
  | nan : JsNum
  | num : ℚ → JsNum
deriving DecidableEq

/-- JavaScript addition: any non-finite operand poisons the result. -/
def jsAdd : JsNum → JsNum → JsNum
  | JsNum.num a, JsNum.num b => JsNum.num (a + b)
  | _, _ => JsNum.nan

instance : Add JsNum := ⟨jsAdd⟩

instance : Zero JsNum := ⟨JsNum.num 0⟩

instance : AddCommMonoid JsNum where
  add_assoc a b c := by
    cases a <;> cases b <;> cases c <;>
      first
        | rfl
        | exact congrArg JsNum.num (add_assoc _ _ _)
  zero_add a := by
    cases a <;> first
      | rfl
      | exact congrArg JsNum.num (zero_add _)
  add_zero a := by
    cases a <;> first
      | rfl
      | exact congrArg JsNum.num (add_zero _)
  add_comm a b := by
    cases a <;> cases b <;>
      first
        | rfl
        | exact congrArg JsNum.num (add_comm _ _)
  nsmul := nsmulRec

/-- Reading a possibly missing numeric field in an arithmetic context:
`undefined` becomes `nan`. -/
def jsOf : Option ℚ → JsNum
  | none => JsNum.nan
  | some q => JsNum.num q

/-- JavaScript division, with `nan` standing for the non-finite results of
a zero denominator (`±Infinity`, or `NaN` for `0 / 0`). -/
def jsDiv : JsNum → JsNum → JsNum
  | JsNum.num a, JsNum.num b => if b = 0 then JsNum.nan else JsNum.num (a / b)
  | _, _ => JsNum.nan

/-- JavaScript multiplication on the model: non-finite operands poison the
result. -/
def jsMul : JsNum → JsNum → JsNum
  | JsNum.num a, JsNum.num b => JsNum.num (a * b)
  | _, _ => JsNum.nan

/-- A local calendar timestamp: the components a JavaScript `Date` exposes
to the grouping code (`getFullYear`, `getMonth`, day of month via the
locale date string) plus the time of day in milliseconds. Comparison of
`Date` objects is lexicographic in these components. -/
structure Timestamp where
  year : Nat
  month : Nat
  day : Nat
  tod : Nat
deriving DecidableEq

/-- Date comparison (the order `a.date - b.date` induces):
lexicographic on (year, month, day, time-of-day). -/
def Timestamp.leB (a b : Timestamp) : Bool :=
  if a.year ≠ b.year then decide (a.year < b.year)
  else if a.month ≠ b.month then decide (a.month < b.month)
  else if a.day ≠ b.day then decide (a.day < b.day)
  else decide (a.tod ≤ b.tod)

/-- Strict date order. -/
def Timestamp.lt (a b : Timestamp) : Prop := Timestamp.leB a b = true ∧ a ≠ b

/-- The grouping key of `toLocaleDateString('en-US')`: the calendar day. -/
def Timestamp.dayKey (t : Timestamp) : Nat × Nat × Nat := (t.year, t.month, t.day)

/-- The grouping key of the template string "getFullYear-(getMonth()+1)":
the calendar month. -/
def Timestamp.monthKey (t : Timestamp) : Nat × Nat := (t.year, t.month)

/-- An audit transaction record as consumed by the audit helpers: a
possibly missing `amount`, a `createdAt` date, and a possibly missing
`object.name`. -/
structure Audit where
  amount : Option ℚ
  createdAt : Timestamp
  objectName : Option String
deriving DecidableEq

/-- The result object of `calculateAuditRatio` (src/unnamed/part_007). -/
structure RatioStats where
  ratio : ℚ
  isBalanced : Bool
  needsAudits : Bool
  upToDate : Bool
  doneAmount : ℚ
  receivedAmount : ℚ
deriving DecidableEq

/-- The `reduce((sum, audit) => sum + (audit.amount || 0), 0)` total. -/
def sumAmounts (l : List Audit) : ℚ := l.foldl (fun s a => s + a.amount.getD 0) 0

/-- Shallow embedding of `calculateAuditRatio` (src/unnamed/part_007,
lines 12-43). The `Array.isArray` guards are outside the typed model. -/
def calculateAuditRatio (auditsDone auditsReceived : List Audit) : RatioStats :=
  let doneAmount := sumAmounts auditsDone
  let receivedAmount := sumAmounts auditsReceived
  if receivedAmount = 0 then
    ⟨if 0 < doneAmount then doneAmount / 1000 else 1,
      true, false, true, doneAmount, receivedAmount⟩
  else
    let ratio := doneAmount / receivedAmount
    ⟨ratio, decide (1 ≤ ratio), decide (ratio < 4 / 5), decide (1 ≤ ratio),
      doneAmount, receivedAmount⟩

/-- Shallow embedding of `d3ScaleLinear` (src/js/utils/svgHelpers.js,
lines 350-393) on numeric domains. `Number(x) || c` is the identity on a
finite numeric `x` except that `x = 0` picks the fallback `c`; the
`Date`, invalid-array and `undefined`/`null` branches lie outside the
ℚ-valued model. -/
def d3ScaleLinear (domain range : ℚ × ℚ) : ℚ → ℚ := fun value =>
  let domainStart : ℚ := domain.1
  let domainEnd : ℚ := if domain.2 = 0 then 1 else domain.2
  let domainDiff : ℚ := if domainEnd = domainStart then 1 else domainEnd - domainStart
  let rangeDiff : ℚ := range.2 - range.1
  let normalizedValue := (value - domainStart) / domainDiff
  let clampedValue := max 0 (min 1 normalizedValue)
  range.1 + clampedValue * rangeDiff

/-- A JavaScript object used as a string-keyed map: an association list in
insertion order. `upsertWith m k i u` models
`if (!map[k]) map[k] = i; map[k] = update(map[k])`: the first entry with
key `k` is updated in place, and a fresh key is appended at the end (the
initial value immediately receives the update of the record that created
it, as in the source). -/
def upsertWith {K β : Type} [DecidableEq K] (m : List (K × β)) (k : K) (i : β)
    (u : β → β) : List (K × β) :=
  match m with
  | [] => [(k, u i)]
  | (k', b) :: rest => if k' = k then (k', u b) :: rest else (k', b) :: upsertWith rest k i u

/-- Map lookup: the value at the first entry with the given key. -/
def findVal {K β : Type} [DecidableEq K] (k : K) : List (K × β) → Option β
  | [] => none
  | (k', b) :: rest => if k' = k then some b else findVal k rest

/-- The keys of an association list, in order. -/
def keysOf {K β : Type} (m : List (K × β)) : List K := m.map Prod.fst

/-- One step of `Array.prototype.sort` modelled as an insertion sort:
insert in front of the first element the comparator does not place
before `x`. -/
def insertBy {α : Type} (le : α → α → Bool) (x : α) : List α → List α
  | [] => [x]
  | y :: ys => if le x y then x :: y :: ys else y :: insertBy le x ys

/-- `Array.prototype.sort` with the comparator `le` (`le a b` meaning the
comparator allows `a` to precede `b`). The claims below use only that the
result is sorted and a permutation of the input, which every correct
implementation of a comparison sort satisfies. -/
def sortBy {α : Type} (le : α → α → Bool) : List α → List α
  | [] => []
  | x :: xs => insertBy le x (sortBy le xs)

/-- An XP transaction record as consumed by the data transformers:
possibly missing `amount`, a `createdAt` date, and possibly missing
`object.name` / `object.type`. -/
structure Txn where
  amount : Option ℚ
  createdAt : Timestamp
  objectName : Option String
  objectType : Option String
deriving DecidableEq

/-- A date bucket of `transformXpData` before the cumulative pass: the
`createdAt` of the first transaction of the day, and the accumulated
amount. -/
structure XpDateBucket where
  date : Timestamp
  amount : JsNum
deriving DecidableEq

/-- An entry of `transformXpData`'s `byDate` output. -/
structure XpDatePoint where
  date : Timestamp
  amount : JsNum
  cumulativeAmount : JsNum
deriving DecidableEq

/-- An entry of `transformXpData`'s `byProject` output. -/
structure XpProjectBucket where
  project : String
  amount : JsNum
  type : String
deriving DecidableEq

/-- The result object of `transformXpData`. -/
structure XpData where
  total : JsNum
  byDate : List XpDatePoint
  byProject : List XpProjectBucket
deriving DecidableEq

/-- One `transactions.forEach` step of the `dateMap` grouping in
`transformXpData` (src/js/utils/dataTransformers.js, lines 25-35). -/
def xpDateStep (m : List ((Nat × Nat × Nat) × XpDateBucket)) (t : Txn) :
    List ((Nat × Nat × Nat) × XpDateBucket) :=
  upsertWith m t.createdAt.dayKey ⟨t.createdAt, JsNum.num 0⟩
    (fun b => ⟨b.date, b.amount + jsOf t.amount⟩)

/-- One `transactions.forEach` step of the `projectMap` grouping in
`transformXpData` (src/js/utils/dataTransformers.js, lines 54-65). -/
def xpProjectStep (m : List (String × XpProjectBucket)) (t : Txn) :
    List (String × XpProjectBucket) :=
  upsertWith m (t.objectName.getD "Unknown")
    ⟨t.objectName.getD "Unknown", JsNum.num 0, t.objectType.getD "unknown"⟩
    (fun b => ⟨b.project, b.amount + jsOf t.amount, b.type⟩)

/-- The `byDate` sort comparator `(a, b) => a.date - b.date`. -/
def xpDateLe (a b : XpDateBucket) : Bool := Timestamp.leB a.date b.date

/-- JavaScript `<=` on numbers as used through a sort comparator; a `nan`
comparison result leaves the pair in place. -/
def jsLeB : JsNum → JsNum → Bool
  | JsNum.num a, JsNum.num b => decide (a ≤ b)
  | _, _ => true

/-- The `byProject` sort comparator `(a, b) => b.amount - a.amount`. -/
def xpProjectGeB (a b : XpProjectBucket) : Bool := jsLeB b.amount a.amount

/-- The cumulative pass of `transformXpData`: for each index `i` of the
sorted bucket list, the sum of the amounts of buckets `0..i`
(`array.slice(0, index + 1).reduce(...)`). -/
def withCumulative (l : List XpDateBucket) : List XpDatePoint :=
  l.enum.map (fun p => ⟨p.2.date, p.2.amount, ((l.take (p.1 + 1)).map XpDateBucket.amount).sum⟩)

/-- Shallow embedding of `transformXpData`
(src/js/utils/dataTransformers.js, lines 12-76). -/
def transformXpData (transactions : List Txn) : XpData :=
  if transactions = [] then ⟨JsNum.num 0, [], []⟩
  else
    let total := transactions.foldl (fun s t => s + jsOf t.amount) (JsNum.num 0)
    let dateMap := transactions.foldl xpDateStep []
    let byDate := withCumulative (sortBy xpDateLe (dateMap.map Prod.snd))
    let projectMap := transactions.foldl xpProjectStep []
    let byProject := sortBy xpProjectGeB (projectMap.map Prod.snd)
    ⟨total, byDate, byProject⟩

/-- An entry of the `skillsMap` grouping of `transformSkillsData`. -/
structure SkillEntry where
  skill : String
  xp : JsNum
deriving DecidableEq

/-- An entry of `transformSkillsData`'s output. -/
structure SkillPoint where
  skill : String
  xp : JsNum
  percentage : JsNum
deriving DecidableEq

/-- One `transactions.forEach` step of the `skillsMap` grouping in
`transformSkillsData` (src/js/utils/dataTransformers.js, lines 179-189). -/
def skillStep (m : List (String × SkillEntry)) (t : Txn) : List (String × SkillEntry) :=
  upsertWith m (t.objectType.getD "unknown") ⟨t.objectType.getD "unknown", JsNum.num 0⟩
    (fun b => ⟨b.skill, b.xp + jsOf t.amount⟩)

/-- The grand total `Object.values(skillsMap).reduce((sum, s) => sum + s.xp, 0)`. -/
def skillsTotal (transactions : List Txn) : JsNum :=
  ((transactions.foldl skillStep []).map Prod.snd).foldl (fun s e => s + e.xp) (JsNum.num 0)

/-- The skills sort comparator `(a, b) => b.xp - a.xp`. -/
def skillGeB (a b : SkillPoint) : Bool := jsLeB b.xp a.xp

/-- Shallow embedding of `transformSkillsData`
(src/js/utils/dataTransformers.js, lines 172-203). The percentage is the
raw JavaScript expression `(skill.xp / totalXP) * 100`, with `jsDiv`
recording the non-finite result of a zero denominator. -/
def transformSkillsData (transactions : List Txn) : List SkillPoint :=
  if transactions = [] then []
  else
    let values := (transactions.foldl skillStep []).map Prod.snd
    sortBy skillGeB
      (values.map (fun s =>
        ⟨s.skill, s.xp, jsMul (jsDiv s.xp (skillsTotal transactions)) (JsNum.num 100)⟩))

/-- A month bucket of the audit-history grouping. -/
structure MonthBucket where
  month : Nat × Nat
  done : Nat
  received : Nat
  doneAmount : ℚ
  receivedAmount : ℚ
  date : Timestamp
deriving DecidableEq

/-- The fresh bucket created on a month's first occurrence: all counters
zero and `date = new Date(year, month, 1)`. -/
def monthInit (k : Nat × Nat) : MonthBucket := ⟨k, 0, 0, 0, 0, ⟨k.1, k.2, 1, 0⟩⟩

/-- One `auditsDone.forEach` step of `getAuditHistoryTrend`
(src/unnamed/part_007, lines 189-206). -/
def doneStep (m : List ((Nat × Nat) × MonthBucket)) (a : Audit) :
    List ((Nat × Nat) × MonthBucket) :=
  upsertWith m a.createdAt.monthKey (monthInit a.createdAt.monthKey)
    (fun b => ⟨b.month, b.done + 1, b.received, b.doneAmount + a.amount.getD 0,
      b.receivedAmount, b.date⟩)

/-- One `auditsReceived.forEach` step of `getAuditHistoryTrend`
(src/unnamed/part_007, lines 209-226). -/
def recvStep (m : List ((Nat × Nat) × MonthBucket)) (a : Audit) :
    List ((Nat × Nat) × MonthBucket) :=
  upsertWith m a.createdAt.monthKey (monthInit a.createdAt.monthKey)
    (fun b => ⟨b.month, b.done, b.received + 1, b.doneAmount,
      b.receivedAmount + a.amount.getD 0, b.date⟩)

/-- `Object.values(monthsMap)` after both grouping passes. -/
def monthBuckets (auditsDone auditsReceived : List Audit) : List MonthBucket :=
  (auditsReceived.foldl recvStep (auditsDone.foldl doneStep [])).map Prod.snd

/-- A point of the audit history (the month key string "y-(m+1)" is the
`(year, month)` pair it determines). -/
structure MonthPoint where
  month : Nat × Nat
  done : Nat
  received : Nat
  doneAmount : ℚ
  receivedAmount : ℚ
  date : Timestamp
  ratio : ℚ
deriving DecidableEq

/-- Attach a ratio to a month bucket (the `.map(month => ({...month, ratio}))`). -/
def withRatio (f : MonthBucket → ℚ) (b : MonthBucket) : MonthPoint :=
  ⟨b.month, b.done, b.received, b.doneAmount, b.receivedAmount, b.date, f b⟩

/-- The monthly ratio of src/unnamed/part_007, line 232-233. -/
def monthRatio007 (b : MonthBucket) : ℚ :=
  if 0 < b.receivedAmount then b.doneAmount / b.receivedAmount
  else if 0 < b.doneAmount then b.doneAmount / 1000 else 1

/-- The monthly ratio of src/js/utils/auditHelpers.js, line 219-220 (both
fallback arms are 1). -/
def monthRatioAH (b : MonthBucket) : ℚ :=
  if 0 < b.receivedAmount then b.doneAmount / b.receivedAmount
  else if 0 < b.doneAmount then 1 else 1

/-- The history sort comparator `(a, b) => a.date - b.date`. -/
def monthPointLe (a b : MonthPoint) : Bool := Timestamp.leB a.date b.date

/-- Shallow embedding of `getAuditHistoryTrend` (src/unnamed/part_007,
lines 184-236). -/
def getAuditHistoryTrend (auditsDone auditsReceived : List Audit) : List MonthPoint :=
  sortBy monthPointLe ((monthBuckets auditsDone auditsReceived).map (withRatio monthRatio007))

/-- The placeholder point the auditHelpers.js variant builds from the
wall clock (`new Date()`), whose local calendar reading is the injected
`now`. -/
def monthPlaceholder (now : Timestamp) : MonthPoint :=
  ⟨(now.year, now.month), 0, 0, 0, 0, ⟨now.year, now.month, 1, 0⟩, 1⟩

/-- Shallow embedding of `getAuditHistoryTrend`
(src/js/utils/auditHelpers.js, lines 153-239). This variant consults the
wall clock on empty input; the ambient clock is passed explicitly as
`now`. The `Array.isArray` guards are outside the typed model. -/
def getAuditHistoryTrendAH (now : Timestamp) (auditsDone auditsReceived : List Audit) :
    List MonthPoint :=
  if auditsDone = [] ∧ auditsReceived = [] then [monthPlaceholder now]
  else
    let history :=
      sortBy monthPointLe ((monthBuckets auditsDone auditsReceived).map (withRatio monthRatioAH))
    if history = [] then [monthPlaceholder now] else history

/-- A per-project accumulator of `analyzeAuditDetails`. -/
structure ProjectAcc where
  done : Nat
  received : Nat
  totalAmount : ℚ
  count : Nat
deriving DecidableEq

/-- An entry of `analyzeAuditDetails`'s `byProject` output. -/
structure ProjectAuditStats where
  name : String
  done : Nat
  received : Nat
  totalAmount : ℚ
  count : Nat
  averageAmount : ℚ
deriving DecidableEq

/-- One `auditsDone.forEach` step of the `byProject` grouping in
`analyzeAuditDetails` (src/unnamed/part_007, lines 111-125). -/
def projDoneStep (m : List (String × ProjectAcc)) (a : Audit) : List (String × ProjectAcc) :=
  upsertWith m (a.objectName.getD "Unknown") ⟨0, 0, 0, 0⟩
    (fun b => ⟨b.done + 1, b.received, b.totalAmount + a.amount.getD 0, b.count + 1⟩)

/-- One `auditsReceived.forEach` step of the `byProject` grouping in
`analyzeAuditDetails` (src/unnamed/part_007, lines 128-142). -/
def projRecvStep (m : List (String × ProjectAcc)) (a : Audit) : List (String × ProjectAcc) :=
  upsertWith m (a.objectName.getD "Unknown") ⟨0, 0, 0, 0⟩
    (fun b => ⟨b.done, b.received + 1, b.totalAmount + a.amount.getD 0, b.count + 1⟩)

/-- The result object of `analyzeAuditDetails`. -/
structure AuditDetails where
  avgDone : ℚ
  avgReceived : ℚ
  byProject : List ProjectAuditStats
  recentDone : Nat
  recentReceived : Nat
  recentRatio : ℚ
deriving DecidableEq

/-- Shallow embedding of `analyzeAuditDetails` (src/unnamed/part_007,
lines 98-171). `x || 1` on a count is modelled by the zero test. -/
def analyzeAuditDetails (auditsDone auditsReceived : List Audit) : AuditDetails :=
  let doneAvg :=
    sumAmounts auditsDone / (if auditsDone.length = 0 then 1 else (auditsDone.length : ℚ))
  let receivedAvg :=
    sumAmounts auditsReceived
      / (if auditsReceived.length = 0 then 1 else (auditsReceived.length : ℚ))
  let byProject := auditsReceived.foldl projRecvStep (auditsDone.foldl projDoneStep [])
  let recentDone := (auditsDone.take 5).length
  let recentReceived := (auditsReceived.take 5).length
  ⟨doneAvg, receivedAvg,
    byProject.map (fun p =>
      ⟨p.1, p.2.done, p.2.received, p.2.totalAmount, p.2.count,
        p.2.totalAmount / (p.2.count : ℚ)⟩),
    recentDone, recentReceived,
    (recentDone : ℚ) / (if recentReceived = 0 then 1 else (recentReceived : ℚ))⟩

/-- The geometry decision `createDonutChart` takes for a drawn segment:
either the special-cased pair of concentric circles (a full ring) or an
arc path between two angles. Angles are in units of π radians (the code
multiplies the percentage fraction by `Math.PI * 2`). -/
inductive DonutShape where
  | fullRing : DonutShape
  | arcPath : ℚ → ℚ → DonutShape
deriving DecidableEq

/-- A donut segment computed by `createDonutChart` (src/unnamed/part_004,
lines 51-62); `angle` is in units of π radians. -/
structure DonutSegment where
  label : String
  value : ℚ
  percentage : ℚ
  angle : ℚ
deriving DecidableEq

/-- A segment as actually drawn. -/
structure DrawnSegment where
  label : String
  value : ℚ
  percentage : ℚ
  shape : DonutShape
deriving DecidableEq

/-- The two segments of `createDonutChart` with the default labels
('Passed', 'Failed'): percentages guarded by `total > 0`, angles
`(percentage / 100) * 2π` recorded as the coefficient of π. -/
def donutSegments (passed failed : ℚ) : List DonutSegment :=
  let total := passed + failed
  let passedPercentage := if 0 < total then passed / total * 100 else 0
  let failedPercentage := if 0 < total then failed / total * 100 else 0
  [⟨"Passed", passed, passedPercentage, passedPercentage / 100 * 2⟩,
    ⟨"Failed", failed, failedPercentage, failedPercentage / 100 * 2⟩]

/-- One `segments.forEach` step of `createDonutChart` (src/unnamed/part_004,
lines 70-202): zero-value segments are skipped; a segment with
`percentage ≥ 99.9` whose label is the FIRST label ('Passed') is drawn as
a full ring (and the running start angle is not advanced, as the callback
returns early); every other segment is drawn as an arc path from the
running start angle. -/
def donutDrawStep (acc : List DrawnSegment × ℚ) (seg : DonutSegment) :
    List DrawnSegment × ℚ :=
  if seg.value = 0 then acc
  else
    let endAngle := acc.2 + seg.angle
    if 999 / 10 ≤ seg.percentage ∧ seg.label = "Passed" then
      (acc.1 ++ [⟨seg.label, seg.value, seg.percentage, DonutShape.fullRing⟩], acc.2)
    else
      (acc.1 ++ [⟨seg.label, seg.value, seg.percentage, DonutShape.arcPath acc.2 endAngle⟩],
        endAngle)

/-- The list of segments `createDonutChart` draws, with the shape decision
for each (the DOM/SVG construction around it is presentation-only). -/
def createDonutChart (passed failed : ℚ) : List DrawnSegment :=
  ((donutSegments passed failed).foldl donutDrawStep ([], 0)).1

/-- A radar point in polar form: the angle (in units of π radians) and the
distance from the center, which determine the drawn coordinates
`(centerX + distance * cos angle, centerY + distance * sin angle)`. -/
structure RadarPoint where
  angle : ℚ
  distance : JsNum
deriving DecidableEq

/-- The geometry computed by `createSkillsRadarChart`: the angular step
between axes, the axis angles, and the data points. -/
structure RadarGeom where
  angleStep : ℚ
  axisAngles : List ℚ
  points : List RadarPoint
deriving DecidableEq

/-- The default radar radius (`opts.radius`). -/
def radarRadius : ℚ := 105

/-- Shallow embedding of the geometry of `createSkillsRadarChart`
(src/unnamed/part_004, lines 306-352 and 442-452): `null` for fewer than
3 skills, otherwise angles `i * (2π / displaySkills.length) - π/2` (as
coefficients of π) and distances `(percentage / 100) * radius` over the
first 6 skills only. -/
def createSkillsRadarChart (skills : List SkillPoint) : Option RadarGeom :=
  if skills.length < 3 then none
  else
    let displaySkills := skills.take 6
    let angleStep : ℚ := 2 / (displaySkills.length : ℚ)
    some ⟨angleStep,
      displaySkills.enum.map (fun p => (p.1 : ℚ) * angleStep - 1 / 2),
      displaySkills.enum.map (fun p =>
        ⟨(p.1 : ℚ) * angleStep - 1 / 2,
          jsMul (jsDiv p.2.percentage (JsNum.num 100)) (JsNum.num radarRadius)⟩)⟩

/-- The number of records of `l` whose `createdAt` falls in calendar
month `k`. -/
def monthCount (k : Nat × Nat) (l : List Audit) : Nat :=
  (l.filter (fun a => decide (a.createdAt.monthKey = k))).length

/-- The total `(amount || 0)` of the records of `l` in month `k`. -/
def monthAmountSum (k : Nat × Nat) (l : List Audit) : ℚ :=
  ((l.filter (fun a => decide (a.createdAt.monthKey = k))).map (fun a => a.amount.getD 0)).sum

/-- The month bucket the two grouping passes produce for month `k`, given
the processed done records `d` and received records `r`. -/
def expectedMonth (d r : List Audit) (k : Nat × Nat) : MonthBucket :=
  ⟨k, monthCount k d, monthCount k r, monthAmountSum k d, monthAmountSum k r, ⟨k.1, k.2, 1, 0⟩⟩

/-- The months map holds exactly the per-month summaries of the processed
done prefix `d` and received prefix `r`. -/
def monthSpec (d r : List Audit) (m : List ((Nat × Nat) × MonthBucket)) : Prop :=
  ∀ k, findVal k m
    = if k ∈ d.map (fun a => a.createdAt.monthKey)
          ∨ k ∈ r.map (fun a => a.createdAt.monthKey)
      then some (expectedMonth d r k) else none

/-- The monthly-history invariants of the specification: strictly
ascending by date, one point per month occurring in either input (and no
other), no duplicated month key, and a month with activity on only one
side reports the other side's count and amount as zero. -/
def monthHistoryOk (d r : List Audit) (H : List MonthPoint) : Prop :=
  H.Pairwise (fun a b => Timestamp.lt a.date b.date)
  ∧ (H.map MonthPoint.month).Nodup
  ∧ (∀ k, k ∈ H.map MonthPoint.month
      ↔ (k ∈ d.map (fun a => a.createdAt.monthKey)
          ∨ k ∈ r.map (fun a => a.createdAt.monthKey)))
  ∧ ∀ p ∈ H, ((∀ a ∈ d, a.createdAt.monthKey ≠ p.month) → p.done = 0 ∧ p.doneAmount = 0)
      ∧ ((∀ a ∈ r, a.createdAt.monthKey ≠ p.month) → p.received = 0 ∧ p.receivedAmount = 0)

/-- C2: `calculateAuditRatio` returns `ratio = doneAmount / receivedAmount`
whenever `receivedAmount > 0`, and on `receivedAmount = 0` a defined
finite fallback (`doneAmount / 1000` if `doneAmount > 0`, else `1`) —
the ratio is a rational in every case, never `Infinity` or `NaN` (the
division is guarded by the zero test, so the `jsDiv` escape to `nan`
never occurs and the result lives in `ℚ`). -/
theorem calculateAuditRatio_ratio_spec (d r : List Audit) :
    (0 < (calculateAuditRatio d r).receivedAmount →
      (calculateAuditRatio d r).ratio
        = (calculateAuditRatio d r).doneAmount / (calculateAuditRatio d r).receivedAmount)
    ∧ ((calculateAuditRatio d r).receivedAmount = 0 →
      (calculateAuditRatio d r).ratio
        = if 0 < (calculateAuditRatio d r).doneAmount
          then (calculateAuditRatio d r).doneAmount / 1000 else 1) := by
  unfold calculateAuditRatio
  by_cases h : sumAmounts r = 0 <;> simp [h]

theorem calculateAuditRatio_ratio_spec_witness :
    0 < (calculateAuditRatio [⟨some 3, ⟨2024, 0, 1, 0⟩, none⟩]
          [⟨some 2, ⟨2024, 0, 1, 0⟩, none⟩]).receivedAmount
    ∧ (calculateAuditRatio [⟨some 3, ⟨2024, 0, 1, 0⟩, none⟩]
          [⟨some 2, ⟨2024, 0, 1, 0⟩, none⟩]).ratio
        = (calculateAuditRatio [⟨some 3, ⟨2024, 0, 1, 0⟩, none⟩]
            [⟨some 2, ⟨2024, 0, 1, 0⟩, none⟩]).doneAmount
          / (calculateAuditRatio [⟨some 3, ⟨2024, 0, 1, 0⟩, none⟩]
              [⟨some 2, ⟨2024, 0, 1, 0⟩, none⟩]).receivedAmount := by
  constructor
  · norm_num [calculateAuditRatio, sumAmounts]
  · exact (calculateAuditRatio_ratio_spec _ _).1 (by norm_num [calculateAuditRatio, sumAmounts])

/-- C3 counterexample: one done audit of amount 500 and no received audits.
The fallback branch of `calculateAuditRatio` returns `ratio = 500/1000 =
1/2` yet `upToDate = true`, so `upToDate` does not equal `ratio ≥ 1`. -/
theorem calculateAuditRatio_upToDate_counterexample :
    (calculateAuditRatio [⟨some 500, ⟨2024, 0, 1, 0⟩, none⟩] []).upToDate = true
    ∧ ¬ (1 ≤ (calculateAuditRatio [⟨some 500, ⟨2024, 0, 1, 0⟩, none⟩] []).ratio) := by
  constructor
  · norm_num [calculateAuditRatio, sumAmounts]
  · norm_num [calculateAuditRatio, sumAmounts]

/-- C3 amended: `upToDate` equals `ratio ≥ 1.0` whenever
`receivedAmount ≠ 0`; in the `receivedAmount = 0` fallback branch
`upToDate` is unconditionally `true`, regardless of the fallback ratio. -/
theorem calculateAuditRatio_upToDate_spec (d r : List Audit) :
    ((calculateAuditRatio d r).receivedAmount ≠ 0 →
      (calculateAuditRatio d r).upToDate = decide (1 ≤ (calculateAuditRatio d r).ratio))
    ∧ ((calculateAuditRatio d r).receivedAmount = 0 →
      (calculateAuditRatio d r).upToDate = true) := by
  unfold calculateAuditRatio
  by_cases h : sumAmounts r = 0 <;> simp [h]

theorem calculateAuditRatio_upToDate_spec_witness :
    (calculateAuditRatio [] [⟨some 2, ⟨2024, 0, 1, 0⟩, none⟩]).receivedAmount ≠ 0
    ∧ (calculateAuditRatio [] [⟨some 2, ⟨2024, 0, 1, 0⟩, none⟩]).upToDate
        = decide (1 ≤ (calculateAuditRatio [] [⟨some 2, ⟨2024, 0, 1, 0⟩, none⟩]).ratio) := by
  constructor
  · norm_num [calculateAuditRatio, sumAmounts]
  · exact (calculateAuditRatio_upToDate_spec [] [⟨some 2, ⟨2024, 0, 1, 0⟩, none⟩]).1
      (by norm_num [calculateAuditRatio, sumAmounts])

/-- C4 counterexample: the scale over the degenerate domain `[0, 0]` and
range `[0, 100]` maps `5` to `100`, not to the midpoint `50`: the code
replaces a falsy domain end by `1` and a degenerate difference by `1`, it
does not return the midpoint. -/
theorem d3ScaleLinear_degenerate_counterexample :
    d3ScaleLinear (0, 0) (0, 100) 5 = 100 ∧ d3ScaleLinear (0, 0) (0, 100) 5 ≠ 50 := by
  constructor <;> norm_num [d3ScaleLinear]

/-- C4 amended: with a degenerate domain (`domain[0] = domain[1]`) the map
never divides by zero — the effective domain width is `1` (a zero domain
end is first replaced by `1`, and an equal start and end make the
difference `1`), so the map sends `v` to
`range.1 + clamp₀₁ (v - domain.1) * (range.2 - range.1)` rather than to
the midpoint of the range. -/
theorem d3ScaleLinear_degenerate (d r : ℚ × ℚ) (v : ℚ) (h : d.1 = d.2) :
    d3ScaleLinear d r v = r.1 + max 0 (min 1 (v - d.1)) * (r.2 - r.1) := by
  obtain ⟨d1, d2⟩ := d
  obtain ⟨r1, r2⟩ := r
  simp only at h
  subst h
  unfold d3ScaleLinear
  by_cases h0 : d1 = 0
  · subst h0
    norm_num
  · simp only [if_neg h0, if_pos rfl]
    norm_num

theorem d3ScaleLinear_degenerate_witness :
    ((7 : ℚ), (7 : ℚ)).1 = ((7 : ℚ), (7 : ℚ)).2
    ∧ d3ScaleLinear (7, 7) (0, 100) 9
        = (((0 : ℚ), (100 : ℚ))).1
          + max 0 (min 1 ((9 : ℚ) - ((7 : ℚ), (7 : ℚ)).1)) * ((((0 : ℚ), (100 : ℚ))).2 - (((0 : ℚ), (100 : ℚ))).1) :=
  ⟨rfl, d3ScaleLinear_degenerate (7, 7) (0, 100) 9 rfl⟩

/-- A left fold accumulating with `+` is the initial value plus the sum of
the mapped list (the shape of every `reduce((s, x) => s + g(x), 0)`). -/
theorem foldl_add_eq_sum {α M : Type} [AddCommMonoid M] (g : α → M) (l : List α) (init : M) :
    l.foldl (fun s a => s + g a) init = init + (l.map g).sum := by
  induction l generalizing init with
  | nil => simp
  | cons x xs ih => simp [ih, add_assoc]

theorem keysOf_nil {K β : Type} : keysOf ([] : List (K × β)) = [] := rfl

theorem keysOf_cons {K β : Type} (k : K) (b : β) (m : List (K × β)) :
    keysOf ((k, b) :: m) = k :: keysOf m := rfl

theorem keysOf_upsertWith {K β : Type} [DecidableEq K] (m : List (K × β)) (k : K)
    (i : β) (u : β → β) :
    keysOf (upsertWith m k i u)
      = if k ∈ keysOf m then keysOf m else keysOf m ++ [k] := by
  induction m with
  | nil => simp [upsertWith, keysOf_cons, keysOf_nil]
  | cons q rest ih =>
    obtain ⟨k', b⟩ := q
    by_cases h : k' = k
    · subst h
      simp [upsertWith, keysOf_cons]
    · have hkk : ¬ k = k' := fun hh => h hh.symm
      simp only [upsertWith, if_neg h, keysOf_cons, ih]
      by_cases h2 : k ∈ keysOf rest
      · simp [h2, hkk, List.mem_cons]
      · simp [h2, hkk, List.mem_cons]

theorem mem_keysOf_upsertWith {K β : Type} [DecidableEq K] (m : List (K × β)) (k k0 : K)
    (i : β) (u : β → β) :
    k0 ∈ keysOf (upsertWith m k i u) ↔ k0 ∈ keysOf m ∨ k0 = k := by
  rw [keysOf_upsertWith]
  by_cases h : k ∈ keysOf m
  · rw [if_pos h]
    exact ⟨Or.inl, fun hh => hh.elim id (fun he => he ▸ h)⟩
  · rw [if_neg h]
    simp [List.mem_append]

theorem nodup_keysOf_upsertWith {K β : Type} [DecidableEq K] (m : List (K × β)) (k : K)
    (i : β) (u : β → β) (hm : (keysOf m).Nodup) :
    (keysOf (upsertWith m k i u)).Nodup := by
  rw [keysOf_upsertWith]
  by_cases h : k ∈ keysOf m
  · rw [if_pos h]; exact hm
  · rw [if_neg h]
    refine List.Nodup.append hm (List.nodup_singleton k) ?_
    intro a ha hk
    rw [List.mem_singleton] at hk
    exact h (hk ▸ ha)

theorem findVal_upsertWith {K β : Type} [DecidableEq K] (m : List (K × β)) (k k0 : K)
    (i : β) (u : β → β) :
    findVal k0 (upsertWith m k i u)
      = if k0 = k then some (u ((findVal k m).getD i)) else findVal k0 m := by
  induction m with
  | nil =>
    by_cases h : k0 = k
    · subst h; simp [upsertWith, findVal]
    · have h' : ¬ k = k0 := fun hh => h hh.symm
      simp [upsertWith, findVal, h, h']
  | cons q rest ih =>
    obtain ⟨k', b⟩ := q
    by_cases h1 : k' = k
    · subst h1
      by_cases h2 : k0 = k'
      · subst h2; simp [upsertWith, findVal]
      · have h2' : ¬ k' = k0 := fun hh => h2 hh.symm
        simp [upsertWith, findVal, h2, h2']
    · by_cases h2 : k0 = k
      · subst h2
        simp [upsertWith, findVal, h1, ih]
      · by_cases h3 : k' = k0
        · subst h3; simp [upsertWith, findVal, h1, h2]
        · simp [upsertWith, findVal, h1, h2, h3, ih]

theorem findVal_eq_none_iff {K β : Type} [DecidableEq K] (m : List (K × β)) (k : K) :
    findVal k m = none ↔ k ∉ keysOf m := by
  induction m with
  | nil => simp [findVal, keysOf_nil]
  | cons q rest ih =>
    obtain ⟨k', b⟩ := q
    by_cases h : k' = k
    · subst h; simp [findVal, keysOf_cons]
    · have h' : ¬ k = k' := fun hh => h hh.symm
      simp [findVal, keysOf_cons, h, h', ih]

theorem findVal_of_mem_nodup {K β : Type} [DecidableEq K] (m : List (K × β)) (k : K) (b : β)
    (hnd : (keysOf m).Nodup) (hmem : (k, b) ∈ m) : findVal k m = some b := by
  induction m with
  | nil => cases hmem
  | cons q rest ih =>
    obtain ⟨k', b'⟩ := q
    rw [keysOf_cons, List.nodup_cons] at hnd
    rcases List.mem_cons.mp hmem with h | h
    · rw [Prod.mk.injEq] at h
      obtain ⟨h1, h2⟩ := h
      subst h1; subst h2
      simp [findVal]
    · by_cases hk : k' = k
      · subst hk
        exact absurd (List.mem_map_of_mem Prod.fst h) hnd.1
      · simp only [findVal, if_neg hk]
        exact ih hnd.2 h

theorem mem_upsertWith_invariant {K β : Type} [DecidableEq K] {P : K → β → Prop}
    (m : List (K × β)) (k : K) (i : β) (u : β → β) :
    (∀ p ∈ m, P p.1 p.2) → P k (u i) → (∀ b, P k b → P k (u b)) →
    ∀ p ∈ upsertWith m k i u, P p.1 p.2 := by
  induction m with
  | nil =>
    intro _ hinit _ p hp
    simp only [upsertWith, List.mem_singleton] at hp
    subst hp; exact hinit
  | cons q rest ih =>
    intro hm hinit hupd p hp
    obtain ⟨k', b⟩ := q
    by_cases h : k' = k
    · subst h
      simp only [upsertWith, if_true, eq_self_iff_true, List.mem_cons] at hp
      rcases hp with hp | hp
      · subst hp; exact hupd b (hm (k', b) (List.mem_cons_self _ _))
      · exact hm p (List.mem_cons_of_mem _ hp)
    · simp only [upsertWith, if_neg h, List.mem_cons] at hp
      rcases hp with hp | hp
      · subst hp; exact hm (k', b) (List.mem_cons_self _ _)
      · exact ih (fun q hq => hm q (List.mem_cons_of_mem _ hq)) hinit hupd p hp

theorem sum_map_upsertWith {K β M : Type} [DecidableEq K] [AddCommMonoid M]
    (g : β → M) (m : List (K × β)) (k : K) (i : β) (u : β → β) (d : M)
    (hu : ∀ b, g (u b) = g b + d) (hi : g (u i) = d) :
    ((upsertWith m k i u).map (fun p => g p.2)).sum
      = (m.map (fun p => g p.2)).sum + d := by
  induction m with
  | nil => simp [upsertWith, hi]
  | cons q rest ih =>
    obtain ⟨k', b⟩ := q
    by_cases h : k' = k
    · subst h
      simp only [upsertWith, if_true, eq_self_iff_true, List.map_cons, List.sum_cons, hu b]
      exact add_right_comm (g b) d _
    · simp only [upsertWith, if_neg h, List.map_cons, List.sum_cons, ih]
      exact (add_assoc (g b) _ d).symm

theorem mem_keysOf_foldl_upsert {K α β : Type} [DecidableEq K]
    (key : α → K) (init : α → β) (upd : α → β → β) (xs : List α)
    (m : List (K × β)) (k : K) :
    (k ∈ keysOf (xs.foldl (fun m' x => upsertWith m' (key x) (init x) (upd x)) m))
      ↔ k ∈ keysOf m ∨ k ∈ xs.map key := by
  induction xs generalizing m with
  | nil => simp
  | cons x xs ih =>
    simp only [List.foldl_cons, ih, mem_keysOf_upsertWith, List.map_cons, List.mem_cons]
    tauto

theorem nodup_keysOf_foldl_upsert {K α β : Type} [DecidableEq K]
    (key : α → K) (init : α → β) (upd : α → β → β) (xs : List α)
    (m : List (K × β)) (hm : (keysOf m).Nodup) :
    (keysOf (xs.foldl (fun m' x => upsertWith m' (key x) (init x) (upd x)) m)).Nodup := by
  induction xs generalizing m with
  | nil => exact hm
  | cons x xs ih =>
    exact ih _ (nodup_keysOf_upsertWith m (key x) (init x) (upd x) hm)

theorem mem_foldl_upsert_invariant {K α β : Type} [DecidableEq K] {P : K → β → Prop}
    (key : α → K) (init : α → β) (upd : α → β → β) (xs : List α) (m : List (K × β))
    (hm : ∀ p ∈ m, P p.1 p.2)
    (hinit : ∀ x ∈ xs, P (key x) (upd x (init x)))
    (hupd : ∀ x ∈ xs, ∀ b, P (key x) b → P (key x) (upd x b)) :
    ∀ p ∈ xs.foldl (fun m' x => upsertWith m' (key x) (init x) (upd x)) m, P p.1 p.2 := by
  induction xs generalizing m with
  | nil => exact hm
  | cons x xs ih =>
    refine ih _ ?_ (fun y hy => hinit y (List.mem_cons_of_mem _ hy))
      (fun y hy => hupd y (List.mem_cons_of_mem _ hy))
    exact mem_upsertWith_invariant m (key x) (init x) (upd x) hm
      (hinit x (List.mem_cons_self _ _)) (hupd x (List.mem_cons_self _ _))

theorem sum_map_foldl_upsert {K α β M : Type} [DecidableEq K] [AddCommMonoid M]
    (key : α → K) (init : α → β) (upd : α → β → β) (g : β → M) (dv : α → M)
    (xs : List α) (m : List (K × β))
    (hu : ∀ x ∈ xs, ∀ b, g (upd x b) = g b + dv x)
    (hi : ∀ x ∈ xs, g (upd x (init x)) = dv x) :
    (((xs.foldl (fun m' x => upsertWith m' (key x) (init x) (upd x)) m)).map
        (fun p => g p.2)).sum
      = (m.map (fun p => g p.2)).sum + (xs.map dv).sum := by
  induction xs generalizing m with
  | nil => simp
  | cons x xs ih =>
    simp only [List.foldl_cons, List.map_cons, List.sum_cons]
    rw [ih _ (fun y hy b => hu y (List.mem_cons_of_mem _ hy) b)
        (fun y hy => hi y (List.mem_cons_of_mem _ hy)),
      sum_map_upsertWith (g := g) (d := dv x) _ _ _ _
        (fun b => hu x (List.mem_cons_self _ _) b) (hi x (List.mem_cons_self _ _))]
    exact (add_assoc _ _ _)

theorem insertBy_perm {α : Type} (le : α → α → Bool) (x : α) (l : List α) :
    (insertBy le x l).Perm (x :: l) := by
  induction l with
  | nil => exact List.Perm.refl _
  | cons y ys ih =>
    by_cases h : le x y
    · simp [insertBy, h]
    · simp only [insertBy, if_neg h]
      exact (ih.cons y).trans (List.Perm.swap x y ys)

theorem sortBy_perm {α : Type} (le : α → α → Bool) (l : List α) :
    (sortBy le l).Perm l := by
  induction l with
  | nil => exact List.Perm.refl _
  | cons x xs ih =>
    exact (insertBy_perm le x (sortBy le xs)).trans (ih.cons x)

theorem mem_insertBy {α : Type} (le : α → α → Bool) (x a : α) (l : List α) :
    a ∈ insertBy le x l ↔ a = x ∨ a ∈ l := by
  rw [(insertBy_perm le x l).mem_iff, List.mem_cons]

theorem insertBy_pairwise {α : Type} (le : α → α → Bool)
    (htot : ∀ a b, le a b = true ∨ le b a = true)
    (htrans : ∀ a b c, le a b = true → le b c = true → le a c = true)
    (x : α) (l : List α) (hl : l.Pairwise (fun a b => le a b = true)) :
    (insertBy le x l).Pairwise (fun a b => le a b = true) := by
  induction l with
  | nil => simp [insertBy]
  | cons y ys ih =>
    rcases List.pairwise_cons.mp hl with ⟨hy, hys⟩
    by_cases h : le x y = true
    · simp only [insertBy, if_pos h]
      refine List.pairwise_cons.mpr ⟨?_, hl⟩
      intro z hz
      rcases List.mem_cons.mp hz with hz | hz
      · exact hz ▸ h
      · exact htrans x y z h (hy z hz)
    · simp only [insertBy, if_neg h]
      refine List.pairwise_cons.mpr ⟨?_, ih hys⟩
      intro z hz
      rcases (mem_insertBy le x z ys).mp hz with hz | hz
      · subst hz
        rcases htot y z with hh | hh
        · exact hh
        · exact absurd hh h
      · exact hy z hz

theorem sortBy_pairwise {α : Type} (le : α → α → Bool)
    (htot : ∀ a b, le a b = true ∨ le b a = true)
    (htrans : ∀ a b c, le a b = true → le b c = true → le a c = true)
    (l : List α) : (sortBy le l).Pairwise (fun a b => le a b = true) := by
  induction l with
  | nil => simp [sortBy]
  | cons x xs ih => exact insertBy_pairwise le htot htrans x (sortBy le xs) ih

theorem tsLeB_total (a b : Timestamp) :
    Timestamp.leB a b = true ∨ Timestamp.leB b a = true := by
  unfold Timestamp.leB
  split_ifs <;> simp_all <;> omega

theorem tsLeB_trans (a b c : Timestamp) (h1 : Timestamp.leB a b = true)
    (h2 : Timestamp.leB b c = true) : Timestamp.leB a c = true := by
  unfold Timestamp.leB at h1 h2 ⊢
  split_ifs at h1 h2 ⊢ <;> simp_all <;> omega

theorem jsnum_nan_add (s : JsNum) : JsNum.nan + s = JsNum.nan := by
  cases s <;> rfl

theorem jsnum_num_add (a b : ℚ) :
    (JsNum.num a + JsNum.num b : JsNum) = JsNum.num (a + b) := rfl

theorem jsnum_sum_eq_num {l : List JsNum} {T : ℚ} (h : l.sum = JsNum.num T) :
    ∃ qs : List ℚ, l = qs.map JsNum.num ∧ qs.sum = T := by
  induction l generalizing T with
  | nil =>
    refine ⟨[], rfl, ?_⟩
    have : (JsNum.num 0 : JsNum) = JsNum.num T := h
    simpa using this
  | cons x xs ih =>
    cases x with
    | nan =>
      rw [List.sum_cons, jsnum_nan_add] at h
      cases h
    | num q =>
      rw [List.sum_cons] at h
      cases hs : xs.sum with
      | nan =>
        rw [hs] at h
        cases q' : (JsNum.num q + JsNum.nan : JsNum) with
        | nan => rw [q'] at h; cases h
        | num r => cases q'
      | num r =>
        rw [hs, jsnum_num_add] at h
        obtain ⟨qs, hqs, hsum⟩ := ih hs
        refine ⟨q :: qs, by rw [List.map_cons, hqs], ?_⟩
        rw [List.sum_cons, hsum]
        have : q + r = T := by injection h
        exact this

theorem jsnum_sum_map_num (qs : List ℚ) :
    ((qs.map JsNum.num).sum : JsNum) = JsNum.num qs.sum := by
  induction qs with
  | nil => rfl
  | cons q qs ih => rw [List.map_cons, List.sum_cons, List.sum_cons, ih, jsnum_num_add]

theorem pairwise_snd_of_nodup_keys {K β : Type} (f : β → K) (m : List (K × β))
    (hnd : (keysOf m).Nodup) (hf : ∀ p ∈ m, f p.2 = p.1) :
    (m.map Prod.snd).Pairwise (fun b b' => f b ≠ f b') := by
  rw [List.pairwise_map]
  have h1 : m.Pairwise (fun p q => p.1 ≠ q.1) := List.pairwise_map.mp hnd
  refine List.Pairwise.imp_of_mem ?_ h1
  intro p q hp hq hne
  rw [hf p hp, hf q hq]
  exact hne

theorem map_snd_eq_keysOf {K β : Type} (f : β → K) (m : List (K × β))
    (hf : ∀ p ∈ m, f p.2 = p.1) : (m.map Prod.snd).map f = keysOf m := by
  induction m with
  | nil => rfl
  | cons p rest ih =>
    rw [List.map_cons, List.map_cons, keysOf_cons,
      hf p (List.mem_cons_self _ _), ih (fun q hq => hf q (List.mem_cons_of_mem _ hq))]

theorem enumFrom_map_snd_comp {α γ : Type} (n : Nat) (l : List α) (h : α → γ) :
    (l.enumFrom n).map (fun p => h p.2) = l.map h := by
  induction l generalizing n with
  | nil => rfl
  | cons x xs ih => simp [List.enumFrom_cons, ih]

theorem withCumulative_length (l : List XpDateBucket) :
    (withCumulative l).length = l.length := by
  simp [withCumulative, List.enum]

theorem withCumulative_get (l : List XpDateBucket) (i : Nat)
    (hi : i < (withCumulative l).length) (hl : i < l.length) :
    (withCumulative l).get ⟨i, hi⟩
      = ⟨(l.get ⟨i, hl⟩).date, (l.get ⟨i, hl⟩).amount,
          ((l.take (i + 1)).map XpDateBucket.amount).sum⟩ := by
  simp [withCumulative, List.enum, List.get_eq_getElem, List.getElem_enumFrom]

theorem withCumulative_map_amount (l : List XpDateBucket) :
    (withCumulative l).map XpDatePoint.amount = l.map XpDateBucket.amount := by
  unfold withCumulative
  rw [List.map_map]
  exact enumFrom_map_snd_comp 0 l XpDateBucket.amount

theorem withCumulative_map_date (l : List XpDateBucket) :
    (withCumulative l).map XpDatePoint.date = l.map XpDateBucket.date := by
  unfold withCumulative
  rw [List.map_map]
  exact enumFrom_map_snd_comp 0 l XpDateBucket.date

/-- C1: on a non-empty list of well-formed transactions, `transformXpData`
returns `byDate` buckets sorted strictly ascending by date, the
`cumulativeAmount` at index `i` is the sum of `amount` over buckets
`0..i`, and the last bucket's `cumulativeAmount` is the sum of `amount`
over all input records. -/
theorem transformXpData_byDate_spec (txns : List Txn) (hne : txns ≠ [])
    (_hwf : ∀ t ∈ txns, t.amount ≠ none) :
    ((transformXpData txns).byDate).Pairwise (fun a b => Timestamp.lt a.date b.date)
    ∧ (∀ (i : Nat) (h : i < (transformXpData txns).byDate.length),
        ((transformXpData txns).byDate.get ⟨i, h⟩).cumulativeAmount
          = (((transformXpData txns).byDate.take (i + 1)).map XpDatePoint.amount).sum)
    ∧ ((transformXpData txns).byDate.map XpDatePoint.cumulativeAmount).getLast?
        = some ((txns.map (fun t => jsOf t.amount)).sum) := by
  have hbyDate : (transformXpData txns).byDate
      = withCumulative (sortBy xpDateLe ((txns.foldl xpDateStep []).map Prod.snd)) := by
    simp [transformXpData, hne]
  set M := txns.foldl xpDateStep [] with hMdef
  set vals := M.map Prod.snd with hvalsdef
  set L := sortBy xpDateLe vals with hLdef
  have hinv : ∀ p ∈ M, (p.2 : XpDateBucket).date.dayKey = p.1 := by
    refine mem_foldl_upsert_invariant (P := fun k (b : XpDateBucket) => b.date.dayKey = k)
      (fun t : Txn => t.createdAt.dayKey)
      (fun t => (⟨t.createdAt, JsNum.num 0⟩ : XpDateBucket))
      (fun t b => ⟨b.date, b.amount + jsOf t.amount⟩) txns [] (by simp) ?_ ?_
    · intro x hx; rfl
    · intro x hx b hb; exact hb
  have hnodup : (keysOf M).Nodup := by
    exact nodup_keysOf_foldl_upsert (fun t : Txn => t.createdAt.dayKey)
      (fun t => (⟨t.createdAt, JsNum.num 0⟩ : XpDateBucket))
      (fun t b => ⟨b.date, b.amount + jsOf t.amount⟩) txns []
      (by simp [keysOf_nil])
  have hpair_vals : vals.Pairwise (fun b b' => b.date.dayKey ≠ b'.date.dayKey) :=
    pairwise_snd_of_nodup_keys (fun b => b.date.dayKey) M hnodup hinv
  have hLperm : L.Perm vals := sortBy_perm _ _
  have hpair_L : L.Pairwise (fun b b' => b.date.dayKey ≠ b'.date.dayKey) := by
    refine (List.Perm.pairwise_iff ?_ hLperm).mpr hpair_vals
    intro a b hab
    exact fun h => hab h.symm
  have hsorted : L.Pairwise (fun a b => xpDateLe a b = true) :=
    sortBy_pairwise xpDateLe
      (fun a b => tsLeB_total a.date b.date)
      (fun a b c => tsLeB_trans a.date b.date c.date) vals
  have hstrict : L.Pairwise (fun a b => Timestamp.lt a.date b.date) := by
    refine (hsorted.and hpair_L).imp ?_
    intro a b hab
    exact ⟨hab.1, fun he => hab.2 (congrArg Timestamp.dayKey he)⟩
  have hfinal_pairwise :
      (withCumulative L).Pairwise (fun a b => Timestamp.lt a.date b.date) := by
    have h1 : (L.map XpDateBucket.date).Pairwise Timestamp.lt := List.pairwise_map.mpr hstrict
    have h2 : ((withCumulative L).map XpDatePoint.date).Pairwise Timestamp.lt := by
      rw [withCumulative_map_date]; exact h1
    exact List.pairwise_map.mp h2
  have hcum : ∀ (i : Nat) (h : i < (withCumulative L).length),
      ((withCumulative L).get ⟨i, h⟩).cumulativeAmount
        = (((withCumulative L).take (i + 1)).map XpDatePoint.amount).sum := by
    intro i h
    have hl : i < L.length := by
      rw [← withCumulative_length L]; exact h
    rw [withCumulative_get L i h hl, List.map_take, List.map_take, withCumulative_map_amount]
  have hsum : (M.map (fun p => XpDateBucket.amount p.2)).sum
      = (txns.map (fun t => jsOf t.amount)).sum := by
    have h0 := sum_map_foldl_upsert (fun t : Txn => t.createdAt.dayKey)
      (fun t => (⟨t.createdAt, JsNum.num 0⟩ : XpDateBucket))
      (fun t b => ⟨b.date, b.amount + jsOf t.amount⟩)
      XpDateBucket.amount (fun t => jsOf t.amount) txns []
      (fun x _ b => rfl) (fun x _ => zero_add _)
    simpa using h0
  have hvne : vals ≠ [] := by
    obtain ⟨t, ts, hts⟩ := List.exists_cons_of_ne_nil hne
    have hk : t.createdAt.dayKey ∈ keysOf M := by
      have := (mem_keysOf_foldl_upsert (fun t : Txn => t.createdAt.dayKey)
        (fun t => (⟨t.createdAt, JsNum.num 0⟩ : XpDateBucket))
        (fun t b => ⟨b.date, b.amount + jsOf t.amount⟩) txns []
        t.createdAt.dayKey).mpr
      refine this (Or.inr ?_)
      rw [hts]
      exact List.mem_map_of_mem _ (List.mem_cons_self _ _)
    intro hv
    rw [hvalsdef] at hv
    have : M = [] := List.map_eq_nil_iff.mp hv
    rw [this] at hk
    simp [keysOf_nil] at hk
  have hLne : L ≠ [] := by
    intro h0
    exact hvne (List.Perm.eq_nil (h0 ▸ hLperm.symm))
  have hlast : ((withCumulative L).map XpDatePoint.cumulativeAmount).getLast?
      = some ((txns.map (fun t => jsOf t.amount)).sum) := by
    have hLpos : 0 < L.length := List.length_pos.mpr hLne
    have hwpos : 0 < (withCumulative L).length := by
      rw [withCumulative_length]; exact hLpos
    have hidx : (withCumulative L).length - 1 < (withCumulative L).length := by omega
    rw [List.getLast?_eq_getElem?, List.length_map,
      List.getElem?_eq_getElem (by simpa using hidx), List.getElem_map]
    congr 1
    rw [← List.get_eq_getElem (withCumulative L) ⟨(withCumulative L).length - 1, hidx⟩,
      hcum _ hidx]
    have hlen : (withCumulative L).length - 1 + 1 = (withCumulative L).length := by omega
    rw [hlen, List.take_length, withCumulative_map_amount]
    rw [← hsum]
    have hperm2 : (L.map XpDateBucket.amount).Perm (vals.map XpDateBucket.amount) :=
      hLperm.map XpDateBucket.amount
    rw [hperm2.sum_eq, hvalsdef, List.map_map]
    rfl
  rw [hbyDate]
  exact ⟨hfinal_pairwise, hcum, hlast⟩

theorem monthCount_append_self (d : List Audit) (a : Audit) :
    monthCount a.createdAt.monthKey (d ++ [a]) = monthCount a.createdAt.monthKey d + 1 := by
  unfold monthCount
  rw [List.filter_append, List.length_append]
  simp

theorem monthCount_append_other (d : List Audit) (a : Audit) (k : Nat × Nat)
    (hk : k ≠ a.createdAt.monthKey) : monthCount k (d ++ [a]) = monthCount k d := by
  unfold monthCount
  rw [List.filter_append, List.length_append]
  have h : ¬ (a.createdAt.monthKey = k) := fun hh => hk hh.symm
  simp [h]

theorem monthAmountSum_append_self (d : List Audit) (a : Audit) :
    monthAmountSum a.createdAt.monthKey (d ++ [a])
      = monthAmountSum a.createdAt.monthKey d + a.amount.getD 0 := by
  unfold monthAmountSum
  rw [List.filter_append, List.map_append, List.sum_append]
  simp

theorem monthAmountSum_append_other (d : List Audit) (a : Audit) (k : Nat × Nat)
    (hk : k ≠ a.createdAt.monthKey) : monthAmountSum k (d ++ [a]) = monthAmountSum k d := by
  unfold monthAmountSum
  rw [List.filter_append, List.map_append, List.sum_append]
  have h : ¬ (a.createdAt.monthKey = k) := fun hh => hk hh.symm
  simp [h]

theorem monthCount_eq_zero (k : Nat × Nat) (l : List Audit)
    (h : k ∉ l.map (fun a => a.createdAt.monthKey)) : monthCount k l = 0 := by
  unfold monthCount
  rw [List.length_eq_zero, List.filter_eq_nil_iff]
  intro a ha
  simp only [decide_eq_true_eq]
  intro hmk
  exact h (hmk ▸ List.mem_map_of_mem _ ha)

theorem monthAmountSum_eq_zero (k : Nat × Nat) (l : List Audit)
    (h : k ∉ l.map (fun a => a.createdAt.monthKey)) : monthAmountSum k l = 0 := by
  unfold monthAmountSum
  have h0 : l.filter (fun a => decide (a.createdAt.monthKey = k)) = [] := by
    rw [List.filter_eq_nil_iff]
    intro a ha
    simp only [decide_eq_true_eq]
    intro hmk
    exact h (hmk ▸ List.mem_map_of_mem _ ha)
  rw [h0]
  rfl

theorem monthSpec_nil : monthSpec [] [] [] := by
  intro k
  simp [findVal]

theorem monthSpec_doneStep (d r : List Audit) (m : List ((Nat × Nat) × MonthBucket))
    (h : monthSpec d r m) (a : Audit) : monthSpec (d ++ [a]) r (doneStep m a) := by
  intro k
  unfold doneStep
  rw [findVal_upsertWith]
  by_cases hk : k = a.createdAt.monthKey
  · subst hk
    rw [if_pos rfl, h a.createdAt.monthKey]
    by_cases hmem : a.createdAt.monthKey ∈ d.map (fun a => a.createdAt.monthKey)
        ∨ a.createdAt.monthKey ∈ r.map (fun a => a.createdAt.monthKey)
    · rw [if_pos hmem]
      have hmem2 : a.createdAt.monthKey ∈ (d ++ [a]).map (fun a => a.createdAt.monthKey)
          ∨ a.createdAt.monthKey ∈ r.map (fun a => a.createdAt.monthKey) := by
        rcases hmem with hm | hm
        · exact Or.inl (by rw [List.map_append]; exact List.mem_append_left _ hm)
        · exact Or.inr hm
      rw [if_pos hmem2]
      simp only [Option.getD_some]
      unfold expectedMonth
      rw [monthCount_append_self, monthAmountSum_append_self]
    · rw [if_neg hmem]
      push_neg at hmem
      have hmem2 : a.createdAt.monthKey ∈ (d ++ [a]).map (fun a => a.createdAt.monthKey)
          ∨ a.createdAt.monthKey ∈ r.map (fun a => a.createdAt.monthKey) := by
        refine Or.inl ?_
        rw [List.map_append]
        exact List.mem_append_right _ (by simp)
      rw [if_pos hmem2]
      simp only [Option.getD_none]
      unfold expectedMonth monthInit
      rw [monthCount_append_self, monthAmountSum_append_self,
        monthCount_eq_zero _ _ hmem.1, monthAmountSum_eq_zero _ _ hmem.1,
        monthCount_eq_zero _ _ hmem.2, monthAmountSum_eq_zero _ _ hmem.2]
  · rw [if_neg hk, h k]
    have hiff : (k ∈ (d ++ [a]).map (fun a => a.createdAt.monthKey)
          ∨ k ∈ r.map (fun a => a.createdAt.monthKey))
        ↔ (k ∈ d.map (fun a => a.createdAt.monthKey)
          ∨ k ∈ r.map (fun a => a.createdAt.monthKey)) := by
      rw [List.map_append, List.mem_append]
      simp only [List.map_cons, List.map_nil, List.mem_singleton]
      constructor
      · rintro ((hm | hm) | hm)
        · exact Or.inl hm
        · exact absurd hm hk
        · exact Or.inr hm
      · rintro (hm | hm)
        · exact Or.inl (Or.inl hm)
        · exact Or.inr hm
    by_cases hmem : k ∈ d.map (fun a => a.createdAt.monthKey)
        ∨ k ∈ r.map (fun a => a.createdAt.monthKey)
    · rw [if_pos hmem, if_pos (hiff.mpr hmem)]
      unfold expectedMonth
      rw [monthCount_append_other _ _ _ hk, monthAmountSum_append_other _ _ _ hk]
    · rw [if_neg hmem, if_neg (fun hh => hmem (hiff.mp hh))]

theorem monthSpec_recvStep (d r : List Audit) (m : List ((Nat × Nat) × MonthBucket))
    (h : monthSpec d r m) (a : Audit) : monthSpec d (r ++ [a]) (recvStep m a) := by
  intro k
  unfold recvStep
  rw [findVal_upsertWith]
  by_cases hk : k = a.createdAt.monthKey
  · subst hk
    rw [if_pos rfl, h a.createdAt.monthKey]
    by_cases hmem : a.createdAt.monthKey ∈ d.map (fun a => a.createdAt.monthKey)
        ∨ a.createdAt.monthKey ∈ r.map (fun a => a.createdAt.monthKey)
    · rw [if_pos hmem]
      have hmem2 : a.createdAt.monthKey ∈ d.map (fun a => a.createdAt.monthKey)
          ∨ a.createdAt.monthKey ∈ (r ++ [a]).map (fun a => a.createdAt.monthKey) := by
        rcases hmem with hm | hm
        · exact Or.inl hm
        · exact Or.inr (by rw [List.map_append]; exact List.mem_append_left _ hm)
      rw [if_pos hmem2]
      simp only [Option.getD_some]
      unfold expectedMonth
      rw [monthCount_append_self, monthAmountSum_append_self]
    · rw [if_neg hmem]
      push_neg at hmem
      have hmem2 : a.createdAt.monthKey ∈ d.map (fun a => a.createdAt.monthKey)
          ∨ a.createdAt.monthKey ∈ (r ++ [a]).map (fun a => a.createdAt.monthKey) := by
        refine Or.inr ?_
        rw [List.map_append]
        exact List.mem_append_right _ (by simp)
      rw [if_pos hmem2]
      simp only [Option.getD_none]
      unfold expectedMonth monthInit
      rw [monthCount_append_self, monthAmountSum_append_self,
        monthCount_eq_zero _ _ hmem.1, monthAmountSum_eq_zero _ _ hmem.1,
        monthCount_eq_zero _ _ hmem.2, monthAmountSum_eq_zero _ _ hmem.2]
  · rw [if_neg hk, h k]
    have hiff : (k ∈ d.map (fun a => a.createdAt.monthKey)
          ∨ k ∈ (r ++ [a]).map (fun a => a.createdAt.monthKey))
        ↔ (k ∈ d.map (fun a => a.createdAt.monthKey)
          ∨ k ∈ r.map (fun a => a.createdAt.monthKey)) := by
      rw [List.map_append, List.mem_append]
      simp only [List.map_cons, List.map_nil, List.mem_singleton]
      constructor
      · rintro (hm | (hm | hm))
        · exact Or.inl hm
        · exact Or.inr hm
        · exact absurd hm hk
      · rintro (hm | hm)
        · exact Or.inl hm
        · exact Or.inr (Or.inl hm)
    by_cases hmem : k ∈ d.map (fun a => a.createdAt.monthKey)
        ∨ k ∈ r.map (fun a => a.createdAt.monthKey)
    · rw [if_pos hmem, if_pos (hiff.mpr hmem)]
      unfold expectedMonth
      rw [monthCount_append_other _ _ _ hk, monthAmountSum_append_other _ _ _ hk]
    · rw [if_neg hmem, if_neg (fun hh => hmem (hiff.mp hh))]

theorem monthSpec_foldl_done (ds : List Audit) :
    ∀ (d r : List Audit) (m : List ((Nat × Nat) × MonthBucket)),
      monthSpec d r m → monthSpec (d ++ ds) r (ds.foldl doneStep m) := by
  induction ds with
  | nil => intro d r m h; simpa using h
  | cons a ds ih =>
    intro d r m h
    have h2 := ih (d ++ [a]) r _ (monthSpec_doneStep d r m h a)
    simpa [List.append_assoc] using h2

theorem monthSpec_foldl_recv (rs : List Audit) :
    ∀ (d r : List Audit) (m : List ((Nat × Nat) × MonthBucket)),
      monthSpec d r m → monthSpec d (r ++ rs) (rs.foldl recvStep m) := by
  induction rs with
  | nil => intro d r m h; simpa using h
  | cons a rs ih =>
    intro d r m h
    have h2 := ih d (r ++ [a]) _ (monthSpec_recvStep d r m h a)
    simpa [List.append_assoc] using h2

theorem monthSpec_monthsMap (d r : List Audit) :
    monthSpec d r (r.foldl recvStep (d.foldl doneStep [])) := by
  have h1 := monthSpec_foldl_done d [] [] [] monthSpec_nil
  have h2 := monthSpec_foldl_recv r d [] _ (by simpa using h1)
  simpa using h2

theorem monthHistoryOk_sortBy (f : MonthBucket → ℚ) (d r : List Audit) :
    monthHistoryOk d r (sortBy monthPointLe ((monthBuckets d r).map (withRatio f))) := by
  set M := r.foldl recvStep (d.foldl doneStep []) with hMdef
  have hMB : monthBuckets d r = M.map Prod.snd := rfl
  have hspec : monthSpec d r M := monthSpec_monthsMap d r
  have hnodup : (keysOf M).Nodup := by
    have h1 : (keysOf (d.foldl doneStep [])).Nodup :=
      nodup_keysOf_foldl_upsert (fun a : Audit => a.createdAt.monthKey)
        (fun a => monthInit a.createdAt.monthKey)
        (fun a b => ⟨b.month, b.done + 1, b.received, b.doneAmount + a.amount.getD 0,
          b.receivedAmount, b.date⟩)
        d [] (by simp [keysOf_nil])
    exact nodup_keysOf_foldl_upsert (fun a : Audit => a.createdAt.monthKey)
      (fun a => monthInit a.createdAt.monthKey)
      (fun a b => ⟨b.month, b.done, b.received + 1, b.doneAmount,
        b.receivedAmount + a.amount.getD 0, b.date⟩)
      r _ h1
  have hentry : ∀ p ∈ M, Prod.snd p = expectedMonth d r p.1 := by
    intro p hp
    obtain ⟨k, b⟩ := p
    have h1 : findVal k M = some b := findVal_of_mem_nodup M k b hnodup hp
    rw [hspec k] at h1
    by_cases hmem : k ∈ d.map (fun a => a.createdAt.monthKey)
        ∨ k ∈ r.map (fun a => a.createdAt.monthKey)
    · rw [if_pos hmem] at h1
      exact (Option.some.inj h1).symm
    · rw [if_neg hmem] at h1
      cases h1
  have hkeys_iff : ∀ k, k ∈ keysOf M
      ↔ (k ∈ d.map (fun a => a.createdAt.monthKey)
          ∨ k ∈ r.map (fun a => a.createdAt.monthKey)) := by
    intro k
    constructor
    · intro hk
      by_contra hc
      have h1 := hspec k
      rw [if_neg hc] at h1
      exact ((findVal_eq_none_iff M k).mp h1) hk
    · intro hc
      by_contra hk
      have h1 := hspec k
      rw [(findVal_eq_none_iff M k).mpr hk] at h1
      rw [if_pos hc] at h1
      cases h1
  have hmonthfield : ∀ p ∈ M, (fun b : MonthBucket => b.month) p.2 = p.1 := by
    intro p hp
    rw [hentry p hp]
    rfl
  have hmapmonth : (((monthBuckets d r).map (withRatio f)).map MonthPoint.month) = keysOf M := by
    rw [hMB, List.map_map]
    exact map_snd_eq_keysOf (fun b : MonthBucket => b.month) M hmonthfield
  have hperm : (sortBy monthPointLe ((monthBuckets d r).map (withRatio f))).Perm
      ((monthBuckets d r).map (withRatio f)) := sortBy_perm _ _
  have hnodupH :
      ((sortBy monthPointLe ((monthBuckets d r).map (withRatio f))).map MonthPoint.month).Nodup := by
    rw [(hperm.map MonthPoint.month).nodup_iff, hmapmonth]
    exact hnodup
  have hmemH : ∀ k,
      k ∈ (sortBy monthPointLe ((monthBuckets d r).map (withRatio f))).map MonthPoint.month
      ↔ (k ∈ d.map (fun a => a.createdAt.monthKey)
          ∨ k ∈ r.map (fun a => a.createdAt.monthKey)) := by
    intro k
    rw [(hperm.map MonthPoint.month).mem_iff, hmapmonth]
    exact hkeys_iff k
  have hpoint : ∀ p ∈ sortBy monthPointLe ((monthBuckets d r).map (withRatio f)),
      p.date = (⟨p.month.1, p.month.2, 1, 0⟩ : Timestamp)
      ∧ p.done = monthCount p.month d ∧ p.doneAmount = monthAmountSum p.month d
      ∧ p.received = monthCount p.month r ∧ p.receivedAmount = monthAmountSum p.month r := by
    intro p hp
    have hp2 : p ∈ (monthBuckets d r).map (withRatio f) := hperm.subset hp
    obtain ⟨b, hb, rfl⟩ := List.mem_map.mp hp2
    rw [hMB] at hb
    obtain ⟨q, hq, rfl⟩ := List.mem_map.mp hb
    rw [hentry q hq]
    exact ⟨rfl, rfl, rfl, rfl, rfl⟩
  have hsorted : (sortBy monthPointLe ((monthBuckets d r).map (withRatio f))).Pairwise
      (fun a b => monthPointLe a b = true) :=
    sortBy_pairwise monthPointLe (fun a b => tsLeB_total a.date b.date)
      (fun a b c => tsLeB_trans a.date b.date c.date) _
  have hpairne : (sortBy monthPointLe ((monthBuckets d r).map (withRatio f))).Pairwise
      (fun a b => a.month ≠ b.month) := List.pairwise_map.mp hnodupH
  have hstrict : (sortBy monthPointLe ((monthBuckets d r).map (withRatio f))).Pairwise
      (fun a b => Timestamp.lt a.date b.date) := by
    refine (hsorted.and hpairne).imp_of_mem ?_
    intro a b ha hb hab
    refine ⟨hab.1, ?_⟩
    intro he
    apply hab.2
    have hda := (hpoint a ha).1
    have hdb := (hpoint b hb).1
    rw [hda, hdb] at he
    have h1 := congrArg Timestamp.year he
    have h2 := congrArg Timestamp.month he
    rw [Prod.ext_iff]
    exact ⟨h1, h2⟩
  refine ⟨hstrict, hnodupH, hmemH, ?_⟩
  intro p hp
  obtain ⟨hdate, hdone, hdamt, hrecv, hramt⟩ := hpoint p hp
  constructor
  · intro hnothing
    have hnm : p.month ∉ d.map (fun a => a.createdAt.monthKey) := by
      intro hmem
      obtain ⟨a, ha, hak⟩ := List.mem_map.mp hmem
      exact hnothing a ha hak
    exact ⟨by rw [hdone]; exact monthCount_eq_zero _ _ hnm,
      by rw [hdamt]; exact monthAmountSum_eq_zero _ _ hnm⟩
  · intro hnothing
    have hnm : p.month ∉ r.map (fun a => a.createdAt.monthKey) := by
      intro hmem
      obtain ⟨a, ha, hak⟩ := List.mem_map.mp hmem
      exact hnothing a ha hak
    exact ⟨by rw [hrecv]; exact monthCount_eq_zero _ _ hnm,
      by rw [hramt]; exact monthAmountSum_eq_zero _ _ hnm⟩

theorem monthBuckets_ne_nil (d r : List Audit) (h : ¬ (d = [] ∧ r = [])) :
    monthBuckets d r ≠ [] := by
  intro h0
  have hM : (r.foldl recvStep (d.foldl doneStep [])) = [] := by
    have : monthBuckets d r = (r.foldl recvStep (d.foldl doneStep [])).map Prod.snd := rfl
    rw [this] at h0
    exact List.map_eq_nil_iff.mp h0
  rcases not_and_or.mp h with hd | hr
  · obtain ⟨a, as, ha⟩ := List.exists_cons_of_ne_nil hd
    have hk : a.createdAt.monthKey ∈ keysOf (r.foldl recvStep (d.foldl doneStep [])) := by
      refine (mem_keysOf_foldl_upsert (fun a : Audit => a.createdAt.monthKey)
        (fun a => monthInit a.createdAt.monthKey)
        (fun a b => ⟨b.month, b.done, b.received + 1, b.doneAmount,
          b.receivedAmount + a.amount.getD 0, b.date⟩) r _ _).mpr ?_
      refine Or.inl ?_
      refine (mem_keysOf_foldl_upsert (fun a : Audit => a.createdAt.monthKey)
        (fun a => monthInit a.createdAt.monthKey)
        (fun a b => ⟨b.month, b.done + 1, b.received, b.doneAmount + a.amount.getD 0,
          b.receivedAmount, b.date⟩) d [] _).mpr ?_
      refine Or.inr ?_
      rw [ha]
      exact List.mem_map_of_mem _ (List.mem_cons_self _ _)
    rw [hM] at hk
    simp [keysOf_nil] at hk
  · obtain ⟨a, as, ha⟩ := List.exists_cons_of_ne_nil hr
    have hk : a.createdAt.monthKey ∈ keysOf (r.foldl recvStep (d.foldl doneStep [])) := by
      refine (mem_keysOf_foldl_upsert (fun a : Audit => a.createdAt.monthKey)
        (fun a => monthInit a.createdAt.monthKey)
        (fun a b => ⟨b.month, b.done, b.received + 1, b.doneAmount,
          b.receivedAmount + a.amount.getD 0, b.date⟩) r _ _).mpr ?_
      refine Or.inr ?_
      rw [ha]
      exact List.mem_map_of_mem _ (List.mem_cons_self _ _)
    rw [hM] at hk
    simp [keysOf_nil] at hk

theorem getAuditHistoryTrendAH_eq (now : Timestamp) (d r : List Audit)
    (h : ¬ (d = [] ∧ r = [])) :
    getAuditHistoryTrendAH now d r
      = sortBy monthPointLe ((monthBuckets d r).map (withRatio monthRatioAH)) := by
  unfold getAuditHistoryTrendAH
  rw [if_neg h]
  have hne : sortBy monthPointLe ((monthBuckets d r).map (withRatio monthRatioAH)) ≠ [] := by
    intro h0
    apply monthBuckets_ne_nil d r h
    have hperm := sortBy_perm monthPointLe ((monthBuckets d r).map (withRatio monthRatioAH))
    rw [h0] at hperm
    exact List.map_eq_nil_iff.mp hperm.symm.eq_nil
  rw [if_neg hne]

/-- C6 counterexample: the auditHelpers.js variant of `getAuditHistoryTrend`
applied to two empty arrays returns a placeholder point for the current
wall-clock month, even though no calendar month occurs in either input —
so its history is not "exactly one point per month present in the
input". -/
theorem getAuditHistoryTrendAH_empty_counterexample :
    getAuditHistoryTrendAH ⟨2024, 0, 5, 0⟩ [] [] = [monthPlaceholder ⟨2024, 0, 5, 0⟩]
    ∧ ((([] : List Audit) ++ []).map (fun a : Audit => a.createdAt.monthKey)) = [] := by
  constructor
  · rfl
  · rfl

/-- C6 amended: the part_007 variant of `getAuditHistoryTrend` satisfies
the monthly-history invariants for every pair of input arrays (sorted
strictly ascending by date, exactly one point per calendar month present
in either input, no duplicated month key, and a month with activity on
only one side reports the other side as zero); the auditHelpers.js
variant satisfies them whenever the two inputs are not both empty, and on
two empty inputs it instead returns a single placeholder point for the
current wall-clock month. -/
theorem getAuditHistoryTrend_monthly_spec (d r : List Audit) :
    monthHistoryOk d r (getAuditHistoryTrend d r)
    ∧ ∀ now : Timestamp, ¬ (d = [] ∧ r = []) →
        monthHistoryOk d r (getAuditHistoryTrendAH now d r) := by
  constructor
  · exact monthHistoryOk_sortBy monthRatio007 d r
  · intro now h
    rw [getAuditHistoryTrendAH_eq now d r h]
    exact monthHistoryOk_sortBy monthRatioAH d r

theorem getAuditHistoryTrend_monthly_spec_witness :
    ¬ (([(⟨some 5, ⟨2024, 3, 10, 0⟩, none⟩ : Audit)] = ([] : List Audit))
        ∧ (([] : List Audit) = []))
    ∧ monthHistoryOk [(⟨some 5, ⟨2024, 3, 10, 0⟩, none⟩ : Audit)] []
        (getAuditHistoryTrendAH ⟨2025, 1, 1, 0⟩ [(⟨some 5, ⟨2024, 3, 10, 0⟩, none⟩ : Audit)] []) :=
  ⟨by simp,
    (getAuditHistoryTrend_monthly_spec [(⟨some 5, ⟨2024, 3, 10, 0⟩, none⟩ : Audit)] []).2
      ⟨2025, 1, 1, 0⟩ (by simp)⟩

/-- C8 counterexample: the auditHelpers.js `getAuditHistoryTrend` reads the
wall clock (`new Date()`, modelled as the explicit `now` argument): on two
empty input arrays, two invocations under different clock months return
different histories, so the output is not determined by the input arrays. -/
theorem getAuditHistoryTrendAH_clock_counterexample :
    getAuditHistoryTrendAH ⟨2024, 0, 5, 0⟩ [] []
      ≠ getAuditHistoryTrendAH ⟨2024, 1, 5, 0⟩ [] [] := by
  decide

/-- C8 amended: every transformation in the model is a pure function of
its arguments; the only wall-clock dependence in the pipeline is the
empty-input placeholder of the auditHelpers.js `getAuditHistoryTrend`,
whose clock reading is the explicit `now` argument here. Whenever the two
input arrays are not both empty, its result is independent of the clock,
i.e. two invocations on the same inputs yield the same history. -/
theorem getAuditHistoryTrendAH_clock_independent (now1 now2 : Timestamp)
    (d r : List Audit) (h : ¬ (d = [] ∧ r = [])) :
    getAuditHistoryTrendAH now1 d r = getAuditHistoryTrendAH now2 d r := by
  rw [getAuditHistoryTrendAH_eq now1 d r h, getAuditHistoryTrendAH_eq now2 d r h]

theorem getAuditHistoryTrendAH_clock_independent_witness :
    ¬ ((([] : List Audit) = []) ∧ ([(⟨some 7, ⟨2023, 6, 2, 0⟩, none⟩ : Audit)] = ([] : List Audit)))
    ∧ getAuditHistoryTrendAH ⟨2024, 0, 5, 0⟩ [] [(⟨some 7, ⟨2023, 6, 2, 0⟩, none⟩ : Audit)]
        = getAuditHistoryTrendAH ⟨2026, 4, 5, 0⟩ [] [(⟨some 7, ⟨2023, 6, 2, 0⟩, none⟩ : Audit)] :=
  ⟨by simp,
    getAuditHistoryTrendAH_clock_independent ⟨2024, 0, 5, 0⟩ ⟨2026, 4, 5, 0⟩
      [] [(⟨some 7, ⟨2023, 6, 2, 0⟩, none⟩ : Audit)] (by simp)⟩

theorem jsnum_percentage_sum (xs : List JsNum) (T : ℚ) (hT : T ≠ 0) :
    ∀ S : ℚ, xs.sum = JsNum.num S →
      (xs.map (fun x => jsMul (jsDiv x (JsNum.num T)) (JsNum.num 100))).sum
        = JsNum.num (S / T * 100) := by
  induction xs with
  | nil =>
    intro S hS
    have h0 : (0 : ℚ) = S := by
      have h1 : (JsNum.num 0 : JsNum) = JsNum.num S := hS
      injection h1
    rw [← h0, List.map_nil]
    show (0 : JsNum) = JsNum.num (0 / T * 100)
    rw [zero_div, zero_mul]
    rfl
  | cons x xs ih =>
    intro S hS
    cases x with
    | nan =>
      rw [List.sum_cons, jsnum_nan_add] at hS
      cases hS
    | num q =>
      rw [List.sum_cons] at hS
      cases hs : xs.sum with
      | nan =>
        rw [hs] at hS
        have h1 : (JsNum.num q + JsNum.nan : JsNum) = JsNum.nan := rfl
        rw [h1] at hS
        cases hS
      | num r =>
        rw [hs, jsnum_num_add] at hS
        have hqr : q + r = S := by injection hS
        rw [List.map_cons, List.sum_cons, ih r hs]
        have h1 : jsMul (jsDiv (JsNum.num q) (JsNum.num T)) (JsNum.num 100)
            = JsNum.num (q / T * 100) := by
          simp [jsDiv, jsMul, hT]
        rw [h1, jsnum_num_add]
        congr 1
        rw [← hqr]
        field_simp
        ring

/-- C5 counterexample: a single transaction of amount 0 makes the total 0,
and the computed percentage is then `0 / 0 * 100`, i.e. `NaN` — not the 0
the specification asserts. -/
theorem transformSkillsData_zero_counterexample :
    skillsTotal [(⟨some 0, ⟨2024, 0, 1, 0⟩, none, some "prog"⟩ : Txn)] = JsNum.num 0
    ∧ (transformSkillsData [(⟨some 0, ⟨2024, 0, 1, 0⟩, none, some "prog"⟩ : Txn)]).map
        SkillPoint.percentage = [JsNum.nan]
    ∧ JsNum.nan ≠ JsNum.num 0 := by
  refine ⟨?_, ?_, ?_⟩
  · simp [skillsTotal, skillStep, upsertWith, jsOf, jsnum_num_add]
  · simp [transformSkillsData, skillsTotal, skillStep, upsertWith, jsOf, jsDiv, jsMul,
      sortBy, insertBy, jsnum_num_add]
  · intro h
    cases h

/-- C5 amended: the per-category percentages of `transformSkillsData` sum
to exactly 100 whenever the grand total is a finite positive number; but
when the total is 0, every percentage is the non-finite `0 / 0 * 100`
(`NaN`, modelled `nan`), not 0. -/
theorem transformSkillsData_percentage_spec (txns : List Txn) :
    (∀ T : ℚ, skillsTotal txns = JsNum.num T → 0 < T →
      ((transformSkillsData txns).map SkillPoint.percentage).sum = JsNum.num 100)
    ∧ (skillsTotal txns = JsNum.num 0 →
      ∀ p ∈ transformSkillsData txns, p.percentage = JsNum.nan) := by
  constructor
  · intro T hT hTpos
    by_cases hne : txns = []
    · rw [hne] at hT
      have h1 : (JsNum.num 0 : JsNum) = JsNum.num T := hT
      have hT0 : (0 : ℚ) = T := by injection h1
      rw [← hT0] at hTpos
      exact absurd hTpos (lt_irrefl 0)
    · have htot : skillsTotal txns
          = (((txns.foldl skillStep []).map Prod.snd).map SkillEntry.xp).sum := by
        unfold skillsTotal
        rw [foldl_add_eq_sum]
        exact zero_add _
      have heq : transformSkillsData txns
          = sortBy skillGeB (((txns.foldl skillStep []).map Prod.snd).map
              (fun s => ⟨s.skill, s.xp,
                jsMul (jsDiv s.xp (skillsTotal txns)) (JsNum.num 100)⟩)) := by
        simp [transformSkillsData, hne, skillsTotal]
      have hperm := sortBy_perm skillGeB (((txns.foldl skillStep []).map Prod.snd).map
          (fun s => ⟨s.skill, s.xp, jsMul (jsDiv s.xp (skillsTotal txns)) (JsNum.num 100)⟩))
      rw [heq, (hperm.map SkillPoint.percentage).sum_eq, List.map_map]
      have hsumxp : ((((txns.foldl skillStep []).map Prod.snd)).map SkillEntry.xp).sum
          = JsNum.num T := by
        rw [← htot]
        exact hT
      have hmain := jsnum_percentage_sum
        ((((txns.foldl skillStep []).map Prod.snd)).map SkillEntry.xp) T
        (ne_of_gt hTpos) T hsumxp
      rw [List.map_map] at hmain
      have hTT : T / T * 100 = 100 := by
        field_simp
      rw [hTT] at hmain
      rw [hT]
      exact hmain
  · intro hT0 p hp
    by_cases hne : txns = []
    · rw [hne] at hp
      simp [transformSkillsData] at hp
    · have heq : transformSkillsData txns
          = sortBy skillGeB (((txns.foldl skillStep []).map Prod.snd).map
              (fun s => ⟨s.skill, s.xp,
                jsMul (jsDiv s.xp (skillsTotal txns)) (JsNum.num 100)⟩)) := by
        simp [transformSkillsData, hne, skillsTotal]
      rw [heq] at hp
      have hp2 := (sortBy_perm _ _).subset hp
      obtain ⟨s, hs, rfl⟩ := List.mem_map.mp hp2
      show jsMul (jsDiv s.xp (skillsTotal txns)) (JsNum.num 100) = JsNum.nan
      rw [hT0]
      cases s.xp with
      | nan => rfl
      | num q => simp [jsDiv, jsMul]

theorem transformSkillsData_percentage_spec_witness :
    skillsTotal [(⟨some 30, ⟨2024, 0, 1, 0⟩, none, some "prog"⟩ : Txn),
        ⟨some 10, ⟨2024, 0, 2, 0⟩, none, some "algo"⟩] = JsNum.num 40
    ∧ ((transformSkillsData [(⟨some 30, ⟨2024, 0, 1, 0⟩, none, some "prog"⟩ : Txn),
        ⟨some 10, ⟨2024, 0, 2, 0⟩, none, some "algo"⟩]).map SkillPoint.percentage).sum
      = JsNum.num 100 := by
  have h0 : skillsTotal [(⟨some 30, ⟨2024, 0, 1, 0⟩, none, some "prog"⟩ : Txn),
      ⟨some 10, ⟨2024, 0, 2, 0⟩, none, some "algo"⟩] = JsNum.num 40 := by
    have hstr : ¬ (("prog" : String) = "algo") := by decide
    norm_num [skillsTotal, skillStep, upsertWith, jsOf, jsnum_num_add, hstr]
  exact ⟨h0,
    (transformSkillsData_percentage_spec _).1 40 h0 (by norm_num)⟩

theorem transformXpData_byDate_spec_witness :
    ([(⟨some 100, ⟨2024, 0, 1, 0⟩, some "A", some "prog"⟩ : Txn),
        ⟨some 25, ⟨2024, 0, 2, 0⟩, none, none⟩] : List Txn) ≠ []
    ∧ (∀ t ∈ ([(⟨some 100, ⟨2024, 0, 1, 0⟩, some "A", some "prog"⟩ : Txn),
        ⟨some 25, ⟨2024, 0, 2, 0⟩, none, none⟩] : List Txn), t.amount ≠ none)
    ∧ ((transformXpData [(⟨some 100, ⟨2024, 0, 1, 0⟩, some "A", some "prog"⟩ : Txn),
        ⟨some 25, ⟨2024, 0, 2, 0⟩, none, none⟩]).byDate).Pairwise
        (fun a b => Timestamp.lt a.date b.date) :=
  ⟨by simp, by decide,
    (transformXpData_byDate_spec
      [(⟨some 100, ⟨2024, 0, 1, 0⟩, some "A", some "prog"⟩ : Txn),
        ⟨some 25, ⟨2024, 0, 2, 0⟩, none, none⟩] (by simp) (by decide)).1⟩

theorem jsnum_sum_num_of_forall (xs : List JsNum) (h : ∀ x ∈ xs, x ≠ JsNum.nan) :
    ∃ S : ℚ, xs.sum = JsNum.num S := by
  induction xs with
  | nil => exact ⟨0, rfl⟩
  | cons x xs ih =>
    obtain ⟨S, hS⟩ := ih (fun y hy => h y (List.mem_cons_of_mem _ hy))
    cases x with
    | nan => exact absurd rfl (h _ (List.mem_cons_self _ _))
    | num q => exact ⟨q + S, by rw [List.sum_cons, hS, jsnum_num_add]⟩

/-- C7 counterexample: a transaction with a missing `amount` makes
`transformXpData`'s `total` the JavaScript `0 + undefined = NaN` — the
missing amount does not default to 0 there, so NaN does appear in a
total. -/
theorem transformXpData_missing_amount_counterexample :
    (transformXpData [(⟨none, ⟨2024, 0, 1, 0⟩, none, none⟩ : Txn)]).total = JsNum.nan
    ∧ JsNum.nan ≠ JsNum.num 0 := by
  constructor
  · rfl
  · intro h
    cases h

/-- C7 amended: the aggregation functions are total and never throw;
missing object names default to "Unknown" (every `byProject` name of
`analyzeAuditDetails` is a defaulted name of some input record); in the
audit helpers a missing amount contributes 0 (`calculateAuditRatio` is
unchanged when a missing amount is replaced by 0); but in
`transformXpData` a missing amount propagates NaN into the total — the
total is a finite number only when every record carries an amount. -/
theorem aggregation_defaults_spec :
    (∀ txns : List Txn, (∀ t ∈ txns, t.amount ≠ none) →
      ∃ q : ℚ, (transformXpData txns).total = JsNum.num q)
    ∧ (∀ (ts : Timestamp) (nm : Option String) (d r : List Audit),
        calculateAuditRatio (⟨none, ts, nm⟩ :: d) r
          = calculateAuditRatio (⟨some 0, ts, nm⟩ :: d) r)
    ∧ (∀ d r : List Audit, ∀ p ∈ (analyzeAuditDetails d r).byProject,
        p.name ∈ (d ++ r).map (fun a => a.objectName.getD "Unknown")) := by
  refine ⟨?_, ?_, ?_⟩
  · intro txns hwf
    by_cases hne : txns = []
    · exact ⟨0, by rw [hne]; rfl⟩
    · have htot : (transformXpData txns).total
          = txns.foldl (fun s t => s + jsOf t.amount) (JsNum.num 0) := by
        simp [transformXpData, hne]
      have hall : ∀ x ∈ txns.map (fun t => jsOf t.amount), x ≠ JsNum.nan := by
        intro x hx
        obtain ⟨t, ht, rfl⟩ := List.mem_map.mp hx
        cases ha : t.amount with
        | none => exact absurd ha (hwf t ht)
        | some q =>
          intro hcon
          cases hcon
      obtain ⟨S, hS⟩ := jsnum_sum_num_of_forall (txns.map (fun t => jsOf t.amount)) hall
      refine ⟨S, ?_⟩
      rw [htot, foldl_add_eq_sum, hS]
      show (0 : JsNum) + JsNum.num S = JsNum.num S
      rw [zero_add]
  · intro ts nm d r
    unfold calculateAuditRatio
    have h1 : sumAmounts (⟨none, ts, nm⟩ :: d) = sumAmounts (⟨some 0, ts, nm⟩ :: d) := by
      unfold sumAmounts
      rfl
    rw [h1]
  · intro d r p hp
    have hbp : (analyzeAuditDetails d r).byProject
        = (r.foldl projRecvStep (d.foldl projDoneStep [])).map (fun p =>
            (⟨p.1, p.2.done, p.2.received, p.2.totalAmount, p.2.count,
              p.2.totalAmount / (p.2.count : ℚ)⟩ : ProjectAuditStats)) := rfl
    rw [hbp] at hp
    obtain ⟨q, hq, rfl⟩ := List.mem_map.mp hp
    have hk : q.1 ∈ keysOf (r.foldl projRecvStep (d.foldl projDoneStep [])) :=
      List.mem_map_of_mem Prod.fst hq
    have h2 := (mem_keysOf_foldl_upsert (fun a : Audit => a.objectName.getD "Unknown")
      (fun _ => (⟨0, 0, 0, 0⟩ : ProjectAcc))
      (fun a b => ⟨b.done, b.received + 1, b.totalAmount + a.amount.getD 0, b.count + 1⟩)
      r _ q.1).mp hk
    rcases h2 with h2 | h2
    · have h3 := (mem_keysOf_foldl_upsert (fun a : Audit => a.objectName.getD "Unknown")
        (fun _ => (⟨0, 0, 0, 0⟩ : ProjectAcc))
        (fun a b => ⟨b.done + 1, b.received, b.totalAmount + a.amount.getD 0, b.count + 1⟩)
        d [] q.1).mp h2
      rcases h3 with h3 | h3
      · simp [keysOf_nil] at h3
      · rw [List.map_append]
        exact List.mem_append_left _ h3
    · rw [List.map_append]
      exact List.mem_append_right _ h2

theorem aggregation_defaults_spec_witness :
    (∀ t ∈ [(⟨some 5, ⟨2024, 0, 1, 0⟩, none, none⟩ : Txn)], t.amount ≠ none)
    ∧ ∃ q : ℚ,
        (transformXpData [(⟨some 5, ⟨2024, 0, 1, 0⟩, none, none⟩ : Txn)]).total
          = JsNum.num q :=
  ⟨by decide, aggregation_defaults_spec.1 _ (by decide)⟩

/-- C9 counterexample: `createDonutChart` with `passed = 0`, `failed = 10`
does NOT special-case the 100% Failed category as a full ring: only a
segment labelled with the first label ('Passed') is, so the Failed
segment is drawn as a degenerate arc path from angle 0 to 2π. -/
theorem createDonutChart_failed_counterexample :
    createDonutChart 0 10 = [⟨"Failed", 10, 100, DonutShape.arcPath 0 2⟩]
    ∧ DonutShape.arcPath 0 2 ≠ DonutShape.fullRing := by
  constructor
  · have hstr : ¬ (("Failed" : String) = "Passed") := by decide
    norm_num [createDonutChart, donutSegments, donutDrawStep, hstr]
  · intro h
    cases h

/-- C9 amended: for non-negative inputs, the segment angles sum to 2π
(coefficient 2 of π) when `passed + failed > 0`, and both percentages are
0 when `passed + failed = 0` (no division by zero); the 100%/0% boundary
is special-cased as a single full ring only when the Passed (first-label)
category holds 100% — a 100% Failed category is drawn as a single arc
path spanning 0 to 2π instead. -/
theorem createDonutChart_spec (p f : ℚ) (hp : 0 ≤ p) (hf : 0 ≤ f) :
    (0 < p + f → ((donutSegments p f).map DonutSegment.angle).sum = 2)
    ∧ (p + f = 0 → ∀ s ∈ donutSegments p f, s.percentage = 0)
    ∧ (0 < p → f = 0 → createDonutChart p f
        = [⟨"Passed", p, 100, DonutShape.fullRing⟩])
    ∧ (p = 0 → 0 < f → createDonutChart p f
        = [⟨"Failed", f, 100, DonutShape.arcPath 0 2⟩]) := by
  refine ⟨?_, ?_, ?_, ?_⟩
  · intro htot
    have hne : p + f ≠ 0 := ne_of_gt htot
    simp only [donutSegments, if_pos htot, List.map_cons, List.map_nil, List.sum_cons,
      List.sum_nil]
    field_simp
    ring
  · intro htot s hs
    have hnottot : ¬ (0 < p + f) := by
      rw [htot]
      exact lt_irrefl 0
    simp only [donutSegments, if_neg hnottot] at hs
    rcases List.mem_cons.mp hs with rfl | hs
    · rfl
    · rcases List.mem_cons.mp hs with rfl | hs
      · rfl
      · cases hs
  · intro hppos hf0
    subst hf0
    have hpne : p ≠ 0 := ne_of_gt hppos
    have htot : (0 : ℚ) < p + 0 := by simpa using hppos
    have hpp : p / (p + 0) * 100 = 100 := by
      rw [add_zero, div_self hpne, one_mul]
    have hfp : (0 : ℚ) / (p + 0) * 100 = 0 := by
      rw [zero_div, zero_mul]
    simp only [createDonutChart, donutSegments, if_pos htot, hpp, hfp]
    norm_num [donutDrawStep, hpne]
  · intro hp0 hfpos
    subst hp0
    have hfne : f ≠ 0 := ne_of_gt hfpos
    have htot : (0 : ℚ) < 0 + f := by simpa using hfpos
    have hfp : f / (0 + f) * 100 = 100 := by
      rw [zero_add, div_self hfne, one_mul]
    have hpp : (0 : ℚ) / (0 + f) * 100 = 0 := by
      rw [zero_div, zero_mul]
    have hstr : ¬ (("Failed" : String) = "Passed") := by decide
    simp only [createDonutChart, donutSegments, if_pos htot, hpp, hfp]
    norm_num [donutDrawStep, hfne, hstr]

theorem createDonutChart_spec_witness :
    (0 : ℚ) ≤ 3 ∧ (0 : ℚ) ≤ 0 ∧ (0 : ℚ) < 3
    ∧ createDonutChart 3 0 = [⟨"Passed", 3, 100, DonutShape.fullRing⟩] :=
  ⟨by norm_num, by norm_num, by norm_num,
    (createDonutChart_spec 3 0 (by norm_num) (by norm_num)).2.2.1 (by norm_num) rfl⟩

/-- C10: `createSkillsRadarChart` returns `null` for fewer than 3 skills
without computing geometry; with at least 3 it uses only the first 6
entries (the whole geometry is unchanged when the input is truncated to
its first 6 entries), and its angle step is `2π / min 6 n` (coefficient
`2 / min 6 n` of π), not `2π` over the full input length. -/
theorem createSkillsRadarChart_spec (skills : List SkillPoint) :
    (skills.length < 3 → createSkillsRadarChart skills = none)
    ∧ (3 ≤ skills.length →
        createSkillsRadarChart skills = createSkillsRadarChart (skills.take 6)
        ∧ ∃ g : RadarGeom, createSkillsRadarChart skills = some g
            ∧ g.angleStep = 2 / ((min 6 skills.length : Nat) : ℚ)) := by
  constructor
  · intro h
    simp [createSkillsRadarChart, h]
  · intro h
    have hlen : (skills.take 6).length = min 6 skills.length := List.length_take 6 skills
    have hnot : ¬ (skills.length < 3) := by omega
    have hnot2 : ¬ ((skills.take 6).length < 3) := by
      rw [hlen]
      omega
    constructor
    · rw [createSkillsRadarChart, createSkillsRadarChart, if_neg hnot, if_neg hnot2,
        List.take_take]
      norm_num
    · refine ⟨⟨2 / ((skills.take 6).length : ℚ),
          (skills.take 6).enum.map
            (fun q => (q.1 : ℚ) * (2 / ((skills.take 6).length : ℚ)) - 1 / 2),
          (skills.take 6).enum.map (fun q =>
            ⟨(q.1 : ℚ) * (2 / ((skills.take 6).length : ℚ)) - 1 / 2,
              jsMul (jsDiv q.2.percentage (JsNum.num 100)) (JsNum.num radarRadius)⟩)⟩,
          ?_, ?_⟩
      · rw [createSkillsRadarChart, if_neg hnot]
      · show (2 : ℚ) / ((skills.take 6).length : ℚ)
            = 2 / ((min 6 skills.length : Nat) : ℚ)
        rw [hlen]

theorem createSkillsRadarChart_spec_witness :
    3 ≤ ([(⟨"a", JsNum.num 1, JsNum.num 25⟩ : SkillPoint), ⟨"b", JsNum.num 1, JsNum.num 25⟩,
        ⟨"c", JsNum.num 1, JsNum.num 25⟩, ⟨"d", JsNum.num 1, JsNum.num 25⟩] : List SkillPoint).length
    ∧ (createSkillsRadarChart [(⟨"a", JsNum.num 1, JsNum.num 25⟩ : SkillPoint),
          ⟨"b", JsNum.num 1, JsNum.num 25⟩, ⟨"c", JsNum.num 1, JsNum.num 25⟩,
          ⟨"d", JsNum.num 1, JsNum.num 25⟩]
        = createSkillsRadarChart (([(⟨"a", JsNum.num 1, JsNum.num 25⟩ : SkillPoint),
          ⟨"b", JsNum.num 1, JsNum.num 25⟩, ⟨"c", JsNum.num 1, JsNum.num 25⟩,
          ⟨"d", JsNum.num 1, JsNum.num 25⟩] : List SkillPoint).take 6)
      ∧ ∃ g : RadarGeom, createSkillsRadarChart [(⟨"a", JsNum.num 1, JsNum.num 25⟩ : SkillPoint),
            ⟨"b", JsNum.num 1, JsNum.num 25⟩, ⟨"c", JsNum.num 1, JsNum.num 25⟩,
            ⟨"d", JsNum.num 1, JsNum.num 25⟩] = some g
          ∧ g.angleStep = 2 / ((min 6 ([(⟨"a", JsNum.num 1, JsNum.num 25⟩ : SkillPoint),
              ⟨"b", JsNum.num 1, JsNum.num 25⟩, ⟨"c", JsNum.num 1, JsNum.num 25⟩,
              ⟨"d", JsNum.num 1, JsNum.num 25⟩] : List SkillPoint).length : Nat) : ℚ)) :=
  ⟨by simp,
    (createSkillsRadarChart_spec [(⟨"a", JsNum.num 1, JsNum.num 25⟩ : SkillPoint),
      ⟨"b", JsNum.num 1, JsNum.num 25⟩, ⟨"c", JsNum.num 1, JsNum.num 25⟩,
      ⟨"d", JsNum.num 1, JsNum.num 25⟩]).2 (by simp)⟩
